import Mathlib

/-!
# Default-gateway discovery over a netlink socket (`src/get_gateway.c`, Linux branch)

A shallow embedding of `read_nl_sock`, `send_nl_req`, `get_default_gw`, `get_hw_addr`
and the Linux `get_iface_ip`.

* The receive buffer is a map from byte offsets to bytes; multi-byte fields are
  read in host order, which is little-endian on the targets the Linux branch is
  built for.
* `unsigned int` / `uint32_t` values are naturals reduced modulo `2^32`, `int`
  values are integers, and the conversions between the two are explicit.
* The macros `NLMSG_*`, `RTA_*` and `RTM_*` come from `<linux/netlink.h>` and
  `<linux/rtnetlink.h>`; they are transcribed from those headers, with
  `sizeof(struct nlmsghdr) = 16`, `sizeof(struct rtmsg) = 12` and
  `sizeof(struct rtattr) = 4`.
* System and library calls (`socket`, `malloc`, `send`, `recv`, `if_indextoname`,
  `ioctl`, `arp_open`, `arp_get`) are parameters: the environment says what each of
  them returns.
-/

namespace GetGateway

/-! ## Constants of the kernel interface -/

def AF_INET : Nat := 2
def RT_TABLE_MAIN : Nat := 254
def RTA_OIF : Nat := 4
def RTA_GATEWAY : Nat := 5
def NLMSG_ERROR : Nat := 2
def NLMSG_DONE : Nat := 3
def NLM_F_REQUEST : Nat := 1
def NLM_F_MULTI : Nat := 2
def NLM_F_DUMP : Nat := 768
def RTM_GETROUTE : Nat := 26

/-- Size of `struct nlmsghdr`: `nlmsg_len` (4), `nlmsg_type` (2), `nlmsg_flags` (2),
`nlmsg_seq` (4), `nlmsg_pid` (4). -/
def sizeof_nlmsghdr : Nat := 16
/-- Size of `struct rtmsg`: eight single-byte fields followed by `rtm_flags` (4). -/
def sizeof_rtmsg : Nat := 12
/-- Size of `struct rtattr`: `rta_len` (2), `rta_type` (2). -/
def sizeof_rtattr : Nat := 4
/-- Size of the stack buffer `char buf[8192]` of `get_default_gw`. -/
def BUFSIZE : Nat := 8192

/-! ## Machine integers -/

/-- Conversion of a 32-bit pattern to `int` (two-complement reading). -/
def toInt32 (x : Nat) : Int :=
  if x % 2 ^ 32 < 2 ^ 31 then ((x % 2 ^ 32 : Nat) : Int) else ((x % 2 ^ 32 : Nat) : Int) - 2 ^ 32

/-- Conversion of an `int` to `unsigned int`. -/
def ofInt32 (i : Int) : Nat := (i % 2 ^ 32).toNat

/-- Conversion of an `int` to `size_t` (64 bits). -/
def toSize (i : Int) : Nat := (i % 2 ^ 64).toNat

/-! ## Memory -/

/-- Byte memory addressed by offset from the start of the receive buffer. -/
abbrev Buf := Nat → Nat

def rd8 (buf : Buf) (o : Nat) : Nat := buf o % 256

def rd16 (buf : Buf) (o : Nat) : Nat := rd8 buf o + 256 * rd8 buf (o + 1)

def rd32 (buf : Buf) (o : Nat) : Nat :=
  rd8 buf o + 256 * rd8 buf (o + 1) + 65536 * rd8 buf (o + 2) + 16777216 * rd8 buf (o + 3)

/-- Store `bytes` at offset `off`, the rest of the memory unchanged. -/
def memcpy_to (buf : Buf) (off : Nat) (bytes : List Nat) : Buf :=
  fun k => if off ≤ k ∧ k < off + bytes.length then bytes.getD (k - off) 0 else buf k

/-! ## Header macros -/

/-- The macro `NLMSG_ALIGN(len) = ((len) + 4U - 1) & ~(4U - 1)` on `unsigned int`. -/
def NLMSG_ALIGN (len : Nat) : Nat := ((len + 3) % 2 ^ 32) &&& 0xFFFFFFFC

/-- The macro `NLMSG_LENGTH(len) = (len) + NLMSG_HDRLEN` on `unsigned int`. -/
def NLMSG_LENGTH (len : Nat) : Nat := (len + sizeof_nlmsghdr) % 2 ^ 32

/-- The macro `NLMSG_SPACE(len) = NLMSG_ALIGN(NLMSG_LENGTH(len))`. -/
def NLMSG_SPACE (len : Nat) : Nat := NLMSG_ALIGN (NLMSG_LENGTH len)

/-- The macro `NLMSG_OK(nlh, len)` with `len` an `unsigned int`: the three conjuncts are
evaluated left to right, `nlmsg_len` is the 32-bit field at offset 0 of the header. -/
def NLMSG_OK (buf : Buf) (nlh : Nat) (len : Nat) : Bool :=
  decide (sizeof_nlmsghdr ≤ len) &&
    (decide (sizeof_nlmsghdr ≤ rd32 buf nlh) && decide (rd32 buf nlh ≤ len))

/-- The macro `RTM_PAYLOAD(n) = (n)->nlmsg_len - NLMSG_SPACE(sizeof(struct rtmsg))`, computed in
`size_t` and stored in the `int rt_len`. -/
def RTM_PAYLOAD (nlmsg_len : Nat) : Int :=
  toInt32 ((nlmsg_len + 2 ^ 64 - NLMSG_SPACE sizeof_rtmsg) % 2 ^ 64)

/-- The macro `RTA_ALIGN(len) = ((len) + 4U - 1) & ~(4U - 1)`. -/
def RTA_ALIGN (len : Nat) : Nat := ((len + 3) % 2 ^ 32) &&& 0xFFFFFFFC

/-- The macro `RTA_OK(rta, len)` with `len` an `int`; `rta_len` is the 16-bit field at offset 0. -/
def RTA_OK (buf : Buf) (rta : Nat) (len : Int) : Bool :=
  decide ((sizeof_rtattr : Int) ≤ len) &&
    (decide (sizeof_rtattr ≤ rd16 buf rta) && decide ((rd16 buf rta : Int) ≤ len))

/-- The length update of `RTA_NEXT(rta, attrlen)`: `attrlen -= RTA_ALIGN(rta_len)`,
an `unsigned int` subtraction stored back into the `int`. -/
def RTA_NEXT_len (attrlen : Int) (rta_len : Nat) : Int :=
  toInt32 ((ofInt32 attrlen + 2 ^ 32 - RTA_ALIGN rta_len) % 2 ^ 32)

/-- The length update of `NLMSG_NEXT(nlh, len)`: `len -= NLMSG_ALIGN(nlmsg_len)` on
`unsigned int`. -/
def NLMSG_NEXT_len (len : Nat) (nlmsg_len : Nat) : Nat :=
  (len + 2 ^ 32 - NLMSG_ALIGN nlmsg_len) % 2 ^ 32

/-! ## System environment -/

/-- What one call of `recv` does: fail with a negative value, or hand over a
datagram, of which `recv` stores and counts at most the number of bytes asked for. -/
inductive RecvResult where
  | error
  | data (bytes : List Nat)
deriving DecidableEq, Repr

/-- The answers of the operating system during one call. -/
structure SysEnv where
  /-- value returned by `socket` -/
  socket_ret : Int
  /-- whether `malloc` returns a block -/
  malloc_ok : Bool
  /-- value returned by `send` -/
  send_ret : Int
  /-- value returned by `getpid` -/
  pid : Nat
  /-- results of the successive `recv` calls on the netlink socket -/
  recvs : List RecvResult
  /-- content of the stack buffer when the function is entered -/
  stack : Buf

/-! ## `read_nl_sock` -/

/-- Result of `read_nl_sock`: the value returned, the buffer as left behind, and
the size argument of every `recv` call in the order of the calls. -/
structure ReadOut where
  ret : Int
  buf : Buf
  requests : List Nat

/-- The `do … while (1)` loop of `read_nl_sock`, entered with the current `msg_len`
and `pbuf` (an offset into the buffer). One `recv` result is consumed per
iteration: `recv` is asked for `buf_len - msg_len` bytes (converted to `size_t`),
stores that many bytes of the datagram at most, and its count is stored in the
`int len`. `none` means the call is still blocked in `recv` when the results run out. -/
def read_nl_sock_loop (buf_len : Int) :
    List RecvResult → Buf → Int → Nat → List Nat → Option ReadOut
  | [], _, _, _, _ => none
  | RecvResult.error :: _, buf, msg_len, _, reqs =>
      some ⟨-1, buf, reqs ++ [toSize (buf_len - msg_len)]⟩
  | RecvResult.data dgram :: rest, buf, msg_len, pbuf, reqs =>
      let size := toSize (buf_len - msg_len)
      let got := dgram.take size
      let len : Int := toInt32 got.length
      let buf1 := memcpy_to buf pbuf got
      let reqs1 := reqs ++ [size]
      if len ≤ 0 then some ⟨-1, buf1, reqs1⟩
      else if (NLMSG_OK buf1 pbuf (ofInt32 len) == false) ||
          (rd16 buf1 (pbuf + 4) == NLMSG_ERROR) then some ⟨-1, buf1, reqs1⟩
      else if rd16 buf1 (pbuf + 4) == NLMSG_DONE then some ⟨msg_len, buf1, reqs1⟩
      else if (rd16 buf1 (pbuf + 6) &&& NLM_F_MULTI) == 0 then
        some ⟨msg_len + len, buf1, reqs1⟩
      else read_nl_sock_loop buf_len rest buf1 (msg_len + len) (pbuf + len.toNat) reqs1

/-- The function `read_nl_sock(sock, buf, buf_len)`: the loop started with `msg_len = 0`, `pbuf = buf`. -/
def read_nl_sock (recvs : List RecvResult) (buf : Buf) (buf_len : Int) : Option ReadOut :=
  read_nl_sock_loop buf_len recvs buf 0 0 []

/-! ## `send_nl_req` -/

/-- The exit of `send_nl_req` that was taken. -/
inductive SendBranch where
  | socket_failed
  | overflow
  | alloc_failed
  | send_failed
  | sent
deriving DecidableEq, Repr

/-- Result of `send_nl_req`: the value returned, the exit taken, the size handed
to `malloc` and the `nlmsg_len` stored (when those points are reached), the bytes
handed to `send`, the sockets the call opened and left open, and whether the
message block is still allocated on return. -/
structure SendOut where
  ret : Int
  branch : SendBranch
  alloc_size : Option Nat
  nlmsg_len : Option Nat
  sent : Option (List Nat)
  open_socks : List Int
  block_live : Bool
deriving DecidableEq, Repr

def le16 (v : Nat) : List Nat := [v % 256, v / 256 % 256]

def le32 (v : Nat) : List Nat := [v % 256, v / 256 % 256, v / 65536 % 256, v / 16777216 % 256]

/-- The message block after `memset`, `memcpy` and the five header stores. -/
def nl_request_block (msg_type seq pid : Nat) (payload : List Nat) (payload_len : Nat) :
    List Nat :=
  le32 (NLMSG_LENGTH payload_len) ++ le16 msg_type ++ le16 (NLM_F_DUMP ||| NLM_F_REQUEST) ++
    le32 seq ++ le32 pid ++
    ((payload.take payload_len) ++
      List.replicate (NLMSG_SPACE payload_len - sizeof_nlmsghdr - (payload.take payload_len).length) 0)

/-- The function `send_nl_req(msg_type, seq, payload, payload_len)`: the socket is
opened, the padded length is tested for overflow, the message block is allocated,
filled and sent; only the last exit frees the block, and no exit closes the socket. -/
def send_nl_req (env : SysEnv) (msg_type seq : Nat) (payload : List Nat) (payload_len : Nat) :
    SendOut :=
  let sock := env.socket_ret
  if sock < 0 then ⟨-1, SendBranch.socket_failed, none, none, none, [], false⟩
  else if NLMSG_SPACE payload_len < payload_len then
    ⟨-1, SendBranch.overflow, none, none, none, [sock], false⟩
  else if env.malloc_ok = false then
    ⟨-1, SendBranch.alloc_failed, some (NLMSG_SPACE payload_len), none, none, [sock], false⟩
  else
    let block := nl_request_block msg_type seq (env.pid % 2 ^ 32) payload payload_len
    let msg := block.take (NLMSG_LENGTH payload_len)
    if env.send_ret < 0 then
      ⟨-1, SendBranch.send_failed, some (NLMSG_SPACE payload_len),
        some (NLMSG_LENGTH payload_len), some msg, [sock], true⟩
    else
      ⟨sock, SendBranch.sent, some (NLMSG_SPACE payload_len),
        some (NLMSG_LENGTH payload_len), some msg, [sock], false⟩

/-! ## `get_default_gw` -/

/-- The out-parameters while the response is parsed. -/
structure AttrState where
  gw : Nat
  iface : String
  has_gw : Bool
deriving DecidableEq, Repr

/-- The inner loop `while (RTA_OK(rt_attr, rt_len)) { switch … ; rt_attr = RTA_NEXT(…); }`.
`if_indextoname` yields the name of an interface index, or nothing (then `iface` is
left as it was). Every iteration lowers `rt_len` by at least 4, so `rt_len` itself
bounds the number of iterations. -/
def rta_loop (if_indextoname : Nat → Option String) (buf : Buf) :
    Nat → Nat → Int → AttrState → AttrState
  | 0, _, _, st => st
  | fuel + 1, rt_attr, rt_len, st =>
      if RTA_OK buf rt_attr rt_len then
        let rta_type := rd16 buf (rt_attr + 2)
        let st1 : AttrState :=
          if rta_type = RTA_OIF then
            { st with iface := (if_indextoname (rd32 buf (rt_attr + 4))).getD st.iface }
          else if rta_type = RTA_GATEWAY then
            { st with gw := rd32 buf (rt_attr + 4), has_gw := true }
          else st
        rta_loop if_indextoname buf fuel (rt_attr + RTA_ALIGN (rd16 buf rt_attr))
          (RTA_NEXT_len rt_len (rd16 buf rt_attr)) st1
      else st

/-- Value returned by the parsing loop together with the out-parameters. -/
structure GwRet where
  ret : Int
  gw : Nat
  iface : String
deriving DecidableEq, Repr

/-- The outer loop `while (NLMSG_OK(nlhdr, nl_len)) { … }` followed by `return -1`.
`nlhdr` is an offset into the buffer. `none`: the loop is still running after
`fuel` iterations. -/
def nl_loop (if_indextoname : Nat → Option String) (buf : Buf) :
    Nat → Nat → Nat → Nat → String → Option GwRet
  | 0, _, _, _, _ => none
  | fuel + 1, nlhdr, nl_len, gw, iface =>
      if NLMSG_OK buf nlhdr nl_len then
        let rt_msg := nlhdr + sizeof_nlmsghdr
        if rd8 buf rt_msg ≠ AF_INET ∨ rd8 buf (rt_msg + 4) ≠ RT_TABLE_MAIN then
          some ⟨-1, gw, iface⟩
        else
          let rt_attr := rt_msg + NLMSG_ALIGN sizeof_rtmsg
          let rt_len := RTM_PAYLOAD (rd32 buf nlhdr)
          let st := rta_loop if_indextoname buf rt_len.toNat rt_attr rt_len ⟨gw, iface, false⟩
          if st.has_gw then some ⟨0, st.gw, st.iface⟩
          else
            nl_loop if_indextoname buf fuel (nlhdr + NLMSG_ALIGN (rd32 buf nlhdr))
              (NLMSG_NEXT_len nl_len (rd32 buf nlhdr)) st.gw st.iface
      else some ⟨-1, gw, iface⟩

/-- Value returned by `get_default_gw` and the two out-parameters (`none` for a
null pointer). -/
structure GwResult where
  ret : Int
  gw : Option Nat
  iface : Option String
deriving DecidableEq, Repr

/-- The results of `recv` on the descriptor `sock`: on an invalid descriptor
(`send_nl_req` returned -1) every `recv` fails. -/
def recv_results (env : SysEnv) (sock : Int) : List RecvResult :=
  if sock < 0 then [RecvResult.error] else env.recvs

/-- The function `get_default_gw(gw, iface)`. `none`: the call does not return (blocked in `recv`,
or the parsing loop still running after `fuel` iterations). -/
def get_default_gw (fuel : Nat) (if_indextoname : Nat → Option String) (env : SysEnv)
    (gw : Option Nat) (iface : Option String) : Option GwResult :=
  match gw, iface with
  | some g, some i =>
      let sock := (send_nl_req env RTM_GETROUTE 0 (List.replicate sizeof_rtmsg 0) sizeof_rtmsg).ret
      match read_nl_sock (recv_results env sock) env.stack BUFSIZE with
      | none => none
      | some r =>
          let nl_len := ofInt32 r.ret
          if nl_len ≤ 0 then some ⟨-1, some g, some i⟩
          else
            (nl_loop if_indextoname r.buf fuel 0 nl_len g i).map
              (fun o => ⟨o.ret, some o.gw, some o.iface⟩)
  | _, _ => some ⟨-1, gw, iface⟩

/-! ## Wire format of well-formed responses -/

/-- One route attribute: its type and its value bytes. -/
structure RtAttr where
  rta_type : Nat
  data : List Nat
deriving DecidableEq, Repr

/-- Zero bytes that bring a field of `n` bytes up to a multiple of 4. -/
def pad4 (n : Nat) : List Nat := List.replicate ((4 - n % 4) % 4) 0

/-- Encoding of an attribute: `rta_len`, `rta_type`, the value, the padding. -/
def RtAttr.encode (a : RtAttr) : List Nat :=
  le16 (sizeof_rtattr + a.data.length) ++ le16 a.rta_type ++ a.data ++ pad4 a.data.length

def encodeAttrs : List RtAttr → List Nat
  | [] => []
  | a :: as => a.encode ++ encodeAttrs as

/-- An attribute is well formed when its type and its length fit their 16-bit fields. -/
def RtAttr.wf (a : RtAttr) : Prop :=
  a.rta_type < 65536 ∧ sizeof_rtattr + a.data.length < 65536

instance (a : RtAttr) : Decidable a.wf := by unfold RtAttr.wf; infer_instance

/-- The output-interface attribute carrying index `i`. -/
def oifAttr (i : Nat) : RtAttr := ⟨RTA_OIF, le32 i⟩

/-- The gateway attribute carrying the address `g` (the 32-bit value as stored in `s_addr`). -/
def gwAttr (g : Nat) : RtAttr := ⟨RTA_GATEWAY, le32 g⟩

/-- A netlink frame: the header fields other than the length, and the payload. -/
structure NlFrame where
  nlmsg_type : Nat
  nlmsg_flags : Nat
  nlmsg_seq : Nat
  nlmsg_pid : Nat
  payload : List Nat
deriving DecidableEq, Repr

/-- Encoding of a frame: `nlmsg_len` counts header and payload, the padding follows. -/
def NlFrame.encode (f : NlFrame) : List Nat :=
  le32 (sizeof_nlmsghdr + f.payload.length) ++ le16 f.nlmsg_type ++ le16 f.nlmsg_flags ++
    le32 f.nlmsg_seq ++ le32 f.nlmsg_pid ++ f.payload ++ pad4 f.payload.length

/-- A frame is well formed when its type, flags and length fit their fields. -/
def NlFrame.wf (f : NlFrame) : Prop :=
  f.nlmsg_type < 65536 ∧ f.nlmsg_flags < 65536 ∧ sizeof_nlmsghdr + f.payload.length < 2 ^ 32

instance (f : NlFrame) : Decidable f.wf := by unfold NlFrame.wf; infer_instance

/-- A route record: the frame header fields, the fields of `struct rtmsg`, the attributes. -/
structure Route where
  nlmsg_type : Nat
  nlmsg_flags : Nat
  nlmsg_seq : Nat
  nlmsg_pid : Nat
  rtm_family : Nat
  rtm_dst_len : Nat
  rtm_src_len : Nat
  rtm_tos : Nat
  rtm_table : Nat
  rtm_protocol : Nat
  rtm_scope : Nat
  rtm_type : Nat
  rtm_flags : Nat
  attrs : List RtAttr
deriving DecidableEq, Repr

/-- The bytes of `struct rtmsg`. -/
def Route.rtmsg (r : Route) : List Nat :=
  [r.rtm_family % 256, r.rtm_dst_len % 256, r.rtm_src_len % 256, r.rtm_tos % 256,
    r.rtm_table % 256, r.rtm_protocol % 256, r.rtm_scope % 256, r.rtm_type % 256] ++
    le32 r.rtm_flags

def Route.frame (r : Route) : NlFrame :=
  ⟨r.nlmsg_type, r.nlmsg_flags, r.nlmsg_seq, r.nlmsg_pid, r.rtmsg ++ encodeAttrs r.attrs⟩

def Route.encode (r : Route) : List Nat := r.frame.encode

def encodeRoutes : List Route → List Nat
  | [] => []
  | r :: rs => r.encode ++ encodeRoutes rs

/-- A route record is well formed when its family and table fit a byte and its
attributes are well formed. -/
def Route.wf (r : Route) : Prop :=
  r.rtm_family < 256 ∧ r.rtm_table < 256 ∧ ∀ a ∈ r.attrs, a.wf

instance (r : Route) : Decidable r.wf := by unfold Route.wf; infer_instance

/-- The record belongs to the IPv4 main table. -/
def Route.isMain (r : Route) : Prop := r.rtm_family = AF_INET ∧ r.rtm_table = RT_TABLE_MAIN

instance (r : Route) : Decidable r.isMain := by unfold Route.isMain; infer_instance

def Route.hasAttr (r : Route) (t : Nat) : Prop := ∃ a ∈ r.attrs, a.rta_type = t

instance (r : Route) (t : Nat) : Decidable (r.hasAttr t) := by
  unfold Route.hasAttr; infer_instance

/-- The buffer holds the bytes `bs` from offset `off` on. -/
def Holds (buf : Buf) : Nat → List Nat → Prop
  | _, [] => True
  | off, b :: bs => buf off = b ∧ Holds buf (off + 1) bs

instance decHolds (buf : Buf) : (off : Nat) → (bs : List Nat) → Decidable (Holds buf off bs)
  | _, [] => isTrue trivial
  | off, b :: bs =>
      match Nat.decEq (buf off) b, decHolds buf (off + 1) bs with
      | isTrue h1, isTrue h2 => isTrue ⟨h1, h2⟩
      | isFalse h1, _ => isFalse (fun h => h1 h.1)
      | _, isFalse h2 => isFalse (fun h => h2 h.2)

/-! ## Reading encoded responses back -/

/-- Effect of one attribute of type `t` whose value word is `v` (the `switch` of the inner loop). -/
def attrStep (if_indextoname : Nat → Option String) (t v : Nat) (st : AttrState) : AttrState :=
  if t = RTA_OIF then { st with iface := (if_indextoname v).getD st.iface }
  else if t = RTA_GATEWAY then { st with gw := v, has_gw := true }
  else st

/-- The 32-bit word at the start of an attribute value. -/
def RtAttr.value (a : RtAttr) : Nat := rd32 (fun k => a.data.getD k 0) 0

/-- Effect of a list of attributes, each taken with the word at the start of its value. -/
def foldAttrs (if_indextoname : Nat → Option String) : List RtAttr → AttrState → AttrState
  | [], st => st
  | a :: as, st => foldAttrs if_indextoname as (attrStep if_indextoname a.rta_type a.value st)

/-- Attributes of type output-interface or gateway carry at least the four value bytes. -/
def RtAttr.valued (a : RtAttr) : Prop :=
  (a.rta_type = RTA_OIF ∨ a.rta_type = RTA_GATEWAY) → 4 ≤ a.data.length

instance (a : RtAttr) : Decidable a.valued := by unfold RtAttr.valued; infer_instance

/-- Effect of a list of encoded attributes stored from offset `off` on, each taken
with the word that the buffer holds right after its header. -/
def walkAttrs (if_indextoname : Nat → Option String) (buf : Buf) :
    Nat → List RtAttr → AttrState → AttrState
  | _, [], st => st
  | off, a :: as, st =>
      walkAttrs if_indextoname buf (off + a.encode.length) as
        (attrStep if_indextoname a.rta_type (rd32 buf (off + 4)) st)

/-- The value of the last attribute of type `t` in a list of attributes, if there is one. -/
def lastAttr (t : Nat) (as : List RtAttr) : Option Nat :=
  ((as.filter (fun a => a.rta_type = t)).getLast?).map RtAttr.value

/-- The gateway address a route record carries (its last gateway attribute). -/
def Route.gateway (r : Route) : Option Nat := lastAttr RTA_GATEWAY r.attrs

/-- The output-interface index a route record carries (its last such attribute). -/
def Route.oif (r : Route) : Option Nat := lastAttr RTA_OIF r.attrs

/-- The bytes of one received chunk, addressed from its own start. -/
def chunk_buf (c : List Nat) : Buf := fun k => c.getD k 0

/-- The leading frame of a received chunk passes `NLMSG_OK`: at least a header was
received and the declared length lies between the header size and the bytes received. -/
def lead_ok (c : List Nat) : Prop :=
  16 ≤ c.length ∧ 16 ≤ rd32 (chunk_buf c) 0 ∧ rd32 (chunk_buf c) 0 ≤ c.length

instance (c : List Nat) : Decidable (lead_ok c) := by unfold lead_ok; infer_instance

/-- The `nlmsg_type` of the leading frame of a chunk. -/
def lead_type (c : List Nat) : Nat := rd16 (chunk_buf c) 4

/-- The `nlmsg_flags` of the leading frame of a chunk. -/
def lead_flags (c : List Nat) : Nat := rd16 (chunk_buf c) 6

/-- A chunk after which the reading goes on: its leading frame is sound, is neither
an error nor the end marker, and carries the multi-part flag. -/
def Continuing (c : List Nat) : Prop :=
  lead_ok c ∧ lead_type c ≠ NLMSG_ERROR ∧ lead_type c ≠ NLMSG_DONE ∧
    lead_flags c &&& NLM_F_MULTI ≠ 0

instance (c : List Nat) : Decidable (Continuing c) := by unfold Continuing; infer_instance

/-- The read step of `get_default_gw`: `send_nl_req` with a zeroed `struct rtmsg`,
then `read_nl_sock` on the descriptor it returned, into the 8192-byte stack buffer. -/
def gw_read (env : SysEnv) : Option ReadOut :=
  read_nl_sock
    (recv_results env
      (send_nl_req env RTM_GETROUTE 0 (List.replicate sizeof_rtmsg 0) sizeof_rtmsg).ret)
    env.stack BUFSIZE

/-- The output-interface and gateway attributes of the record carry their four value bytes. -/
def Route.valued (r : Route) : Prop := ∀ a ∈ r.attrs, a.valued

instance (r : Route) : Decidable r.valued := by unfold Route.valued; infer_instance

/-- The chunks that successive `recv` calls store when the datagrams `ds` arrive one
per call and `cap` bytes of the buffer are still free: each call takes what fits. -/
def recv_parts (cap : Nat) : List (List Nat) → List (List Nat)
  | [] => []
  | d :: ds => d.take cap :: recv_parts (cap - (d.take cap).length) ds

/-- Number of bytes in a list of chunks. -/
def total_len : List (List Nat) → Nat
  | [] => 0
  | c :: cs => c.length + total_len cs

/-- The buffer after the chunks have been stored one directly after the other from `pbuf` on. -/
def store_chunks (buf : Buf) : Nat → List (List Nat) → Buf
  | _, [] => buf
  | pbuf, c :: cs => store_chunks (memcpy_to buf pbuf c) (pbuf + c.length) cs

/-- The leading frame of a received chunk is rejected: fewer than 16 bytes were
received, or the declared length is below 16 or above the bytes received, or the
frame has type `NLMSG_ERROR`. -/
def lead_bad (c : List Nat) : Prop :=
  c.length < 16 ∨ rd32 (chunk_buf c) 0 < 16 ∨ c.length < rd32 (chunk_buf c) 0 ∨
    lead_type c = NLMSG_ERROR

instance (c : List Nat) : Decidable (lead_bad c) := by unfold lead_bad; infer_instance

/-- The leading frame of a received chunk ends the reading: it is sound, not an
error, and is of type `NLMSG_DONE` or lacks the multi-part flag. -/
def lead_final (c : List Nat) : Prop :=
  lead_ok c ∧ lead_type c ≠ NLMSG_ERROR ∧
    (lead_type c = NLMSG_DONE ∨ lead_flags c &&& NLM_F_MULTI = 0)

instance (c : List Nat) : Decidable (lead_final c) := by unfold lead_final; infer_instance

/-! ## `get_hw_addr` -/

/-- What a call of `get_hw_addr` does to the ARP table and to the log, in order. -/
inductive HwEvent where
  | arp_open
  | arp_get (ip : Nat)
  | arp_close
  | log_fatal
  | log_debug
deriving DecidableEq, Repr

/-- The answers of the ARP library during one call of `get_hw_addr`. -/
structure ArpEnv where
  /-- whether `arp_open` returns a handle -/
  open_ok : Bool
  /-- what `arp_get` finds for a protocol address: nothing (a negative return value),
  or the bytes of `entry.arp_ha` as it fills them in -/
  lookup : Nat → Option (List Nat)
  /-- Modelled from the spec: `log_fatal` belongs to the logger of this repository,
  which is not among the sources at hand; the spec treats the logger as an opaque sink
  and leaves open whether a fatal message ends the process or returns to the caller,
  so this is a parameter (`true`: `log_fatal` returns). -/
  fatal_returns : Bool

/-- Result of `get_hw_addr`: the value returned (`none` when `log_fatal` ended the
process), the content of the caller's `hw_mac` buffer (`none` for a null pointer),
and what was done to the ARP table and the log. -/
structure HwOut where
  ret : Option Int
  hw_mac : Option (List Nat)
  events : List HwEvent
deriving DecidableEq, Repr

/-- The function `get_hw_addr(gw_ip, iface, hw_mac)`; `gw_ip` is the `s_addr` the pointer
refers to (`none` for a null pointer), `iface` is not used by the function. On
success `memcpy` stores the first 6 bytes of `entry.arp_ha` at the start of `hw_mac`. -/
def get_hw_addr (env : ArpEnv) (gw_ip : Option Nat) (iface : Option String)
    (hw_mac : Option (List Nat)) : HwOut :=
  match gw_ip, iface, hw_mac with
  | some ip, _, some mac =>
      if env.open_ok = false then
        ⟨if env.fatal_returns then some (-1) else none, some mac,
          [HwEvent.arp_open, HwEvent.log_fatal]⟩
      else
        match env.lookup ip with
        | none =>
            if env.fatal_returns then
              ⟨some (-1), some mac,
                [HwEvent.arp_open, HwEvent.arp_get ip, HwEvent.log_fatal, HwEvent.arp_close]⟩
            else
              ⟨none, some mac, [HwEvent.arp_open, HwEvent.arp_get ip, HwEvent.log_fatal]⟩
        | some arp_ha =>
            ⟨some 0, some (arp_ha.take 6 ++ mac.drop 6),
              [HwEvent.arp_open, HwEvent.arp_get ip, HwEvent.log_debug, HwEvent.arp_close]⟩
  | _, _, _ => ⟨some (-1), hw_mac, []⟩

/-! ## `get_iface_ip` (Linux branch) -/

/-- Length of an interface name field, `IFNAMSIZ`. -/
def IFNAMSIZ : Nat := 16

/-- Offset of `sin_addr.s_addr` inside `struct ifreq`: the 16 bytes of `ifr_name`, then
`sin_family` (2) and `sin_port` (2) of the `struct sockaddr_in` overlaid on `ifr_addr`. -/
def ifr_s_addr_offset : Nat := 20

/-- What a call of `get_iface_ip` does, in order. -/
inductive IpEvent where
  | socket
  | ioctl (name : List Char)
  | close (fd : Int)
  | log_fatal
deriving DecidableEq, Repr

/-- The answers of the operating system during one call of `get_iface_ip`. -/
structure IfEnv where
  /-- value returned by `socket` -/
  socket_ret : Int
  /-- what `ioctl(SIOCGIFADDR)` yields for an interface name: a failure, or the IPv4
  address it stores in `ifr.ifr_addr` -/
  ioctl : List Char → Option Nat
  /-- address at which the local variable `struct ifreq ifr` lies -/
  ifr_at : Nat
  /-- Modelled from the spec: whether `log_fatal`, which is not among the sources at
  hand and which the spec leaves open, returns to the caller (`true`) or ends the
  process. -/
  fatal_returns : Bool

/-- Result of `get_iface_ip`: the value returned (`none` when `log_fatal` ended the
process), the content of `ip->s_addr`, and what was done. -/
structure IpOut where
  ret : Option Int
  s_addr : Nat
  events : List IpEvent
deriving DecidableEq, Repr

/-- The function `get_iface_ip(iface, ip)` of the Linux branch; `ip` is the `s_addr` the
caller's `struct in_addr` holds on entry. The statement at line 236 assigns the
address of the field `sin_addr.s_addr` of the local `ifr`, converted to the 32-bit
`s_addr`; the value that `ioctl` stored in that field is not read. -/
def get_iface_ip (env : IfEnv) (iface : List Char) (ip : Nat) : IpOut :=
  let sock := env.socket_ret
  if sock < 0 ∧ env.fatal_returns = false then ⟨none, ip, [IpEvent.socket, IpEvent.log_fatal]⟩
  else
    let ev1 := if sock < 0 then [IpEvent.socket, IpEvent.log_fatal] else [IpEvent.socket]
    let name := iface.take (IFNAMSIZ - 1)
    let answer := if sock < 0 then none else env.ioctl name
    let stored := (env.ifr_at + ifr_s_addr_offset) % 2 ^ 32
    match answer with
    | none =>
        if env.fatal_returns = false then
          ⟨none, ip, ev1 ++ [IpEvent.ioctl name, IpEvent.log_fatal]⟩
        else
          ⟨some 0, stored,
            ev1 ++ [IpEvent.ioctl name, IpEvent.log_fatal, IpEvent.close sock, IpEvent.close sock]⟩
    | some _ => ⟨some 0, stored, ev1 ++ [IpEvent.ioctl name, IpEvent.close sock]⟩

/-! ## Sockets and requests -/

/-- The sockets that a call of `get_default_gw` has opened and not closed when it
returns: the function opens its one socket inside `send_nl_req` (after the null
check) and contains no `close`. -/
def get_default_gw_open_socks (env : SysEnv) (gw : Option Nat) (iface : Option String) :
    List Int :=
  match gw, iface with
  | some _, some _ =>
      (send_nl_req env RTM_GETROUTE 0 (List.replicate sizeof_rtmsg 0) sizeof_rtmsg).open_socks
  | _, _ => []

/-- The sizes asked of `recv` when `cap` bytes are free at the start and the chunks
`parts` are stored one after the other: before each chunk, and once more after the
last one, the free space that is left. -/
def req_sizes (cap : Nat) : List (List Nat) → List Nat
  | [] => [cap]
  | p :: ps => cap :: req_sizes (cap - p.length) ps

/-- The bytes stored by the `recv` call that ends the reading, `cap` bytes being free:
nothing for a failed call, else what fits of the datagram. -/
def last_part (cap : Nat) : RecvResult → List Nat
  | RecvResult.error => []
  | RecvResult.data d => d.take cap

/-! ## Concrete inputs -/

/-- The interface table of the examples: index 2 is `eth0`. -/
def exNames : Nat → Option String := fun i => if i = 2 then some "eth0" else none

/-- The route `{family = IPv4, table = MAIN, oif = 2, gateway = 192.0.2.1}`, sent as
part of a dump (flag `NLM_F_MULTI`); 192.0.2.1 is the word 16908480 in `s_addr`. -/
def exRoute : Route :=
  { nlmsg_type := 24, nlmsg_flags := 2, nlmsg_seq := 0, nlmsg_pid := 0,
    rtm_family := 2, rtm_dst_len := 0, rtm_src_len := 0, rtm_tos := 0, rtm_table := 254,
    rtm_protocol := 3, rtm_scope := 0, rtm_type := 1, rtm_flags := 0,
    attrs := [oifAttr 2, gwAttr 16908480] }

/-- The frame that ends a dump. -/
def exDone : NlFrame :=
  { nlmsg_type := 3, nlmsg_flags := 2, nlmsg_seq := 0, nlmsg_pid := 0, payload := [0, 0, 0, 0] }

/-- An environment in which the request is sent and the kernel answers with `recvs`. -/
def exEnv (recvs : List RecvResult) : SysEnv :=
  { socket_ret := 3, malloc_ok := true, send_ret := 28, pid := 100, recvs := recvs,
    stack := fun _ => 0 }

/-- A well-formed record of another address family (IPv6, family 10), no attributes. -/
def exRoute6 : Route :=
  { nlmsg_type := 24, nlmsg_flags := 2, nlmsg_seq := 0, nlmsg_pid := 0,
    rtm_family := 10, rtm_dst_len := 0, rtm_src_len := 0, rtm_tos := 0, rtm_table := 254,
    rtm_protocol := 3, rtm_scope := 0, rtm_type := 1, rtm_flags := 0, attrs := [] }

/-- A main-table IPv4 record that carries an output interface (index 2) and no gateway. -/
def exOifOnly : Route :=
  { nlmsg_type := 24, nlmsg_flags := 2, nlmsg_seq := 0, nlmsg_pid := 0,
    rtm_family := 2, rtm_dst_len := 24, rtm_src_len := 0, rtm_tos := 0, rtm_table := 254,
    rtm_protocol := 2, rtm_scope := 253, rtm_type := 1, rtm_flags := 0, attrs := [oifAttr 2] }

/-- A main-table IPv4 record that carries a gateway (192.0.2.1) and no output interface. -/
def exGwOnly : Route :=
  { nlmsg_type := 24, nlmsg_flags := 2, nlmsg_seq := 0, nlmsg_pid := 0,
    rtm_family := 2, rtm_dst_len := 0, rtm_src_len := 0, rtm_tos := 0, rtm_table := 254,
    rtm_protocol := 3, rtm_scope := 0, rtm_type := 1, rtm_flags := 0,
    attrs := [gwAttr 16908480] }

/-- A main-table IPv4 record, not part of a multi-part dump, whose single attribute is
a gateway attribute header with no value bytes (`rta_len = 4`); the frame is 32 bytes. -/
def exBareGw : Route :=
  { nlmsg_type := 24, nlmsg_flags := 0, nlmsg_seq := 0, nlmsg_pid := 0,
    rtm_family := 2, rtm_dst_len := 0, rtm_src_len := 0, rtm_tos := 0, rtm_table := 254,
    rtm_protocol := 3, rtm_scope := 0, rtm_type := 1, rtm_flags := 0,
    attrs := [⟨RTA_GATEWAY, []⟩] }

/-- An environment whose stack buffer holds the byte `b` at offset 32 and zeros elsewhere. -/
def exEnvStack (b : Nat) (recvs : List RecvResult) : SysEnv :=
  { socket_ret := 3, malloc_ok := true, send_ret := 28, pid := 100, recvs := recvs,
    stack := fun k => if k = 32 then b else 0 }

/-- A frame header that declares 40 bytes, with nothing after it. -/
def exTruncated : List Nat := le32 40 ++ le16 24 ++ le16 2 ++ le32 0 ++ le32 0

/-- An environment for `get_iface_ip`: the socket is descriptor 3, `ioctl` succeeds
with the address `a` for every name, the local `ifr` lies at address 140737488346112
(0x7FFFFFFFDC00), and `log_fatal` returns. -/
def exIfEnv (a : Nat) : IfEnv :=
  { socket_ret := 3, ioctl := fun _ => some a, ifr_at := 140737488346112,
    fatal_returns := true }

/-- An ARP table that opens and holds no entry, with a `log_fatal` that returns or not. -/
def exArpEmpty (fatal_returns : Bool) : ArpEnv :=
  { open_ok := true, lookup := fun _ => none, fatal_returns := fatal_returns }

/-- An environment of `send_nl_req` in which `malloc` and `send` succeed or fail as given. -/
def exSendEnv (malloc_ok : Bool) (send_ret : Int) : SysEnv :=
  { socket_ret := 3, malloc_ok := malloc_ok, send_ret := send_ret, pid := 100, recvs := [],
    stack := fun _ => 0 }

/-- A 28-byte datagram whose header declares the length 4294967295 (0xFFFFFFFF), with
an `rtmsg` of family IPv4 and table MAIN. -/
def exHugeLen : List Nat :=
  le32 4294967295 ++ le16 24 ++ le16 0 ++ le32 0 ++ le32 0 ++ [2, 0, 0, 0, 254, 3, 0, 1] ++ le32 0

theorem land_mask (x : Nat) (h : x < 2 ^ 32) : x &&& 0xFFFFFFFC = x / 4 * 4 := by
  apply Nat.eq_of_testBit_eq
  intro i
  have e : x / 4 * 4 = (x >>> 2) <<< 2 := by
    rw [Nat.shiftLeft_eq, Nat.shiftRight_eq_div_pow]
  rw [Nat.testBit_land, e, Nat.testBit_shiftLeft, Nat.testBit_shiftRight]
  by_cases hi : i < 32
  · interval_cases i <;> simp [Nat.testBit, Nat.shiftRight_eq_div_pow]
  · have hx : x.testBit i = false :=
      Nat.testBit_lt_two_pow (lt_of_lt_of_le h (Nat.pow_le_pow_right (by norm_num) (by omega)))
    have h2 : 2 + (i - 2) = i := by omega
    simp [hx, h2]

theorem NLMSG_ALIGN_eq (len : Nat) : NLMSG_ALIGN len = (len + 3) % 2 ^ 32 / 4 * 4 := by
  unfold NLMSG_ALIGN
  exact land_mask _ (Nat.mod_lt _ (by norm_num))

theorem RTA_ALIGN_eq (len : Nat) : RTA_ALIGN len = (len + 3) % 2 ^ 32 / 4 * 4 := by
  unfold RTA_ALIGN
  exact land_mask _ (Nat.mod_lt _ (by norm_num))

theorem toInt32_small (x : Nat) (h : x < 2 ^ 31) : toInt32 x = x := by
  unfold toInt32
  have : x % 2 ^ 32 = x := Nat.mod_eq_of_lt (by omega)
  rw [this, if_pos h]

theorem ofInt32_nat (x : Nat) (h : x < 2 ^ 32) : ofInt32 (x : Int) = x := by
  unfold ofInt32
  omega

theorem RTA_NEXT_len_eq (rt_len : Int) (rta_len : Nat) (h0 : 0 ≤ rt_len) (h1 : rt_len < 2 ^ 31)
    (h2 : (rta_len : Int) ≤ rt_len) :
    RTA_NEXT_len rt_len rta_len = rt_len - ((rta_len + 3) / 4 * 4 : Nat) := by
  unfold RTA_NEXT_len toInt32 ofInt32
  rw [RTA_ALIGN_eq]
  split <;> omega

/-! ## Buffer contents -/

theorem Holds_append (buf : Buf) (xs ys : List Nat) :
    ∀ off, Holds buf off (xs ++ ys) ↔ Holds buf off xs ∧ Holds buf (off + xs.length) ys := by
  induction xs with
  | nil => intro off; simp [Holds]
  | cons x xs ih =>
      intro off
      have e : off + 1 + xs.length = off + (xs.length + 1) := by omega
      show (buf off = x ∧ Holds buf (off + 1) (xs ++ ys)) ↔
        (buf off = x ∧ Holds buf (off + 1) xs) ∧ Holds buf (off + (xs.length + 1)) ys
      rw [ih (off + 1), e, and_assoc]

theorem Holds_getD (buf : Buf) (xs : List Nat) :
    ∀ off, Holds buf off xs → ∀ k, k < xs.length → buf (off + k) = xs.getD k 0 := by
  induction xs with
  | nil => intro off _ k hk; simp at hk
  | cons x xs ih =>
      intro off h k hk
      cases k with
      | zero => simpa using h.1
      | succ k =>
          have := ih (off + 1) h.2 k (by simpa using hk)
          have e : off + (k + 1) = off + 1 + k := by omega
          rw [e, this]; simp

theorem Holds_of_getD (buf : Buf) (xs : List Nat) :
    ∀ off, (∀ k, k < xs.length → buf (off + k) = xs.getD k 0) → Holds buf off xs := by
  induction xs with
  | nil => intro off _; trivial
  | cons x xs ih =>
      intro off h
      refine ⟨by simpa using h 0 (by simp), ih (off + 1) ?_⟩
      intro k hk
      have := h (k + 1) (by simpa using hk)
      have e : off + (k + 1) = off + 1 + k := by omega
      rw [e] at this; simpa using this

theorem Holds_memcpy (buf : Buf) (off : Nat) (xs : List Nat) :
    Holds (memcpy_to buf off xs) off xs := by
  apply Holds_of_getD
  intro k hk
  simp [memcpy_to, hk]

theorem Holds_memcpy_before (buf : Buf) (off o : Nat) (xs ys : List Nat)
    (h : Holds buf o ys) (hle : o + ys.length ≤ off) : Holds (memcpy_to buf off xs) o ys := by
  apply Holds_of_getD
  intro k hk
  have := Holds_getD buf ys o h k hk
  simp only [memcpy_to]
  rw [if_neg (by omega)]
  exact this

theorem rd16_le16 (buf : Buf) (off v : Nat) (h : Holds buf off (le16 v)) :
    rd16 buf off = v % 65536 := by
  simp only [le16, Holds] at h
  simp only [rd16, rd8, h.1, h.2.1]
  omega

theorem rd32_le32 (buf : Buf) (off v : Nat) (h : Holds buf off (le32 v)) :
    rd32 buf off = v % 2 ^ 32 := by
  simp only [le32, Holds] at h
  obtain ⟨h0, h1, h2, h3, _⟩ := h
  have e2 : off + 2 = off + 1 + 1 := rfl
  have e3 : off + 3 = off + 1 + 1 + 1 := rfl
  simp only [rd32, rd8, e2, e3, h0, h1, h2, h3]
  omega

theorem pad4_length (n : Nat) : (pad4 n).length = (4 - n % 4) % 4 := by simp [pad4]

theorem RtAttr.encode_size (a : RtAttr) :
    a.encode.length = (sizeof_rtattr + a.data.length + 3) / 4 * 4 := by
  simp only [RtAttr.encode, le16, List.length_append, pad4_length, sizeof_rtattr, List.length_cons, List.length_nil]
  omega

/-! ## The attribute loop on encoded attributes -/

theorem rta_loop_zero_len (names : Nat → Option String) (buf : Buf) (fuel off : Nat)
    (rt_len : Int) (st : AttrState) (h : rt_len < 4) :
    rta_loop names buf fuel off rt_len st = st := by
  cases fuel with
  | zero => rfl
  | succ n =>
      have : RTA_OK buf off rt_len = false := by
        simp only [RTA_OK, sizeof_rtattr, Bool.and_eq_false_imp, decide_eq_true_eq]
        intro h4; omega
      simp [rta_loop, this]

theorem rta_loop_encoded (names : Nat → Option String) (buf : Buf) (as : List RtAttr) :
    (∀ a ∈ as, a.wf) → ∀ (fuel off : Nat) (st : AttrState),
      Holds buf off (encodeAttrs as) → (encodeAttrs as).length < 2 ^ 31 →
      (encodeAttrs as).length ≤ fuel →
      rta_loop names buf fuel off ((encodeAttrs as).length : Nat) st
        = walkAttrs names buf off as st := by
  induction as with
  | nil =>
      intro _ fuel off st _ _ _
      simp only [encodeAttrs, List.length_nil, walkAttrs]
      exact rta_loop_zero_len names buf fuel off _ st (by norm_num)
  | cons a as ih =>
      intro hwf fuel off st hh hlt hfuel
      have hwa : a.wf := hwf a (List.mem_cons_self _ _)
      obtain ⟨ht, hl⟩ := hwa
      simp only [sizeof_rtattr] at hl
      simp only [encodeAttrs, List.length_append] at hh hlt hfuel ⊢
      have hal := a.encode_size
      simp only [sizeof_rtattr] at hal
      obtain ⟨hha, hhas⟩ := (Holds_append buf _ _ off).1 hh
      have hha2 := hha
      simp only [RtAttr.encode, List.append_assoc] at hha2
      obtain ⟨hlen, hrest⟩ := (Holds_append buf _ _ off).1 hha2
      obtain ⟨htype, _⟩ := (Holds_append buf _ _ _).1 hrest
      have e1 : rd16 buf off = 4 + a.data.length := by
        rw [rd16_le16 buf off _ hlen]; simp only [sizeof_rtattr]; omega
      have e2 : rd16 buf (off + 2) = a.rta_type := by
        have := rd16_le16 buf _ _ htype
        simp only [le16, List.length_cons, List.length_nil] at this
        rw [this]; omega
      cases fuel with
      | zero => omega
      | succ n =>
          have hok : RTA_OK buf off ((a.encode.length + (encodeAttrs as).length : Nat) : Int) = true := by
            simp only [RTA_OK, sizeof_rtattr, e1, Bool.and_eq_true, decide_eq_true_eq]
            omega
          have hnext : RTA_NEXT_len ((a.encode.length + (encodeAttrs as).length : Nat) : Int)
              (4 + a.data.length) = ((encodeAttrs as).length : Nat) := by
            rw [RTA_NEXT_len_eq _ _ (by omega) (by omega) (by omega)]
            omega
          have halign : RTA_ALIGN (4 + a.data.length) = a.encode.length := by
            rw [RTA_ALIGN_eq, hal]; omega
          rw [rta_loop, if_pos hok]
          simp only [e1, e2, hnext, halign]
          rw [walkAttrs]
          exact ih (fun b hb => hwf b (List.mem_cons_of_mem _ hb)) n _ _ hhas (by omega) (by omega)

theorem rd32_data (buf : Buf) (off : Nat) (a : RtAttr) (h : Holds buf off a.data)
    (hl : 4 ≤ a.data.length) : rd32 buf off = a.value := by
  have g := Holds_getD buf a.data off h
  have g0 := g 0 (by omega)
  have g1 := g 1 (by omega)
  have g2 := g 2 (by omega)
  have g3 := g 3 (by omega)
  simp only [Nat.add_zero] at g0
  simp only [RtAttr.value, rd32, rd8, g0, g1, g2, g3, Nat.zero_add]

theorem walkAttrs_valued (names : Nat → Option String) (buf : Buf) (as : List RtAttr) :
    (∀ a ∈ as, a.valued) → ∀ (off : Nat) (st : AttrState), Holds buf off (encodeAttrs as) →
      walkAttrs names buf off as st = foldAttrs names as st := by
  induction as with
  | nil => intro _ off st _; rfl
  | cons a as ih =>
      intro hv off st hh
      simp only [encodeAttrs] at hh
      obtain ⟨hha, hhas⟩ := (Holds_append buf _ _ off).1 hh
      simp only [RtAttr.encode, List.append_assoc] at hha
      obtain ⟨_, h2⟩ := (Holds_append buf _ _ off).1 hha
      obtain ⟨_, h3⟩ := (Holds_append buf _ _ _).1 h2
      obtain ⟨h4, _⟩ := (Holds_append buf _ _ _).1 h3
      simp only [le16, List.length_cons, List.length_nil] at h4
      have hstep : attrStep names a.rta_type (rd32 buf (off + 4)) st
          = attrStep names a.rta_type a.value st := by
        by_cases ht : a.rta_type = RTA_OIF ∨ a.rta_type = RTA_GATEWAY
        · have hl := hv a (List.mem_cons_self _ _) ht
          rw [rd32_data buf (off + 4) a h4 hl]
        · have h1 : a.rta_type ≠ RTA_OIF := fun h => ht (Or.inl h)
          have h2 : a.rta_type ≠ RTA_GATEWAY := fun h => ht (Or.inr h)
          simp [attrStep, h1, h2]
      rw [walkAttrs, foldAttrs, hstep]
      exact ih (fun b hb => hv b (List.mem_cons_of_mem _ hb)) _ _ hhas

theorem walkAttrs_no_gw (names : Nat → Option String) (buf : Buf) (as : List RtAttr) :
    (∀ a ∈ as, a.rta_type ≠ RTA_GATEWAY) → ∀ (off : Nat) (st : AttrState),
      (walkAttrs names buf off as st).has_gw = st.has_gw ∧
        (walkAttrs names buf off as st).gw = st.gw := by
  induction as with
  | nil => intro _ off st; exact ⟨rfl, rfl⟩
  | cons a as ih =>
      intro hn off st
      have h1 : a.rta_type ≠ RTA_GATEWAY := hn a (List.mem_cons_self _ _)
      rw [walkAttrs]
      obtain ⟨i1, i2⟩ := ih (fun b hb => hn b (List.mem_cons_of_mem _ hb))
        (off + a.encode.length) (attrStep names a.rta_type (rd32 buf (off + 4)) st)
      rw [i1, i2]
      unfold attrStep
      by_cases h0 : a.rta_type = RTA_OIF <;> simp [h0, h1]

theorem foldAttrs_append (names : Nat → Option String) (as bs : List RtAttr) :
    ∀ st, foldAttrs names (as ++ bs) st = foldAttrs names bs (foldAttrs names as st) := by
  induction as with
  | nil => intro st; rfl
  | cons a as ih => intro st; exact ih _

theorem lastAttr_snoc (t : Nat) (as : List RtAttr) (a : RtAttr) :
    lastAttr t (as ++ [a]) = if a.rta_type = t then some a.value else lastAttr t as := by
  unfold lastAttr
  by_cases h : a.rta_type = t
  · simp [List.filter_append, h]
  · simp [List.filter_append, h]

theorem foldAttrs_gw (names : Nat → Option String) (as : List RtAttr) (st : AttrState) :
    (foldAttrs names as st).has_gw = (st.has_gw || (lastAttr RTA_GATEWAY as).isSome) ∧
      (foldAttrs names as st).gw = (lastAttr RTA_GATEWAY as).getD st.gw := by
  induction as using List.reverseRecOn with
  | nil => simp [foldAttrs, lastAttr]
  | append_singleton as a ih =>
      rw [foldAttrs_append, lastAttr_snoc]
      simp only [foldAttrs, attrStep]
      have hne : RTA_GATEWAY ≠ RTA_OIF := by decide
      by_cases h1 : a.rta_type = RTA_GATEWAY
      · simp [h1, hne]
      · by_cases h0 : a.rta_type = RTA_OIF
        · simp [h0, hne.symm, ih.1, ih.2]
        · simp [h0, h1, ih.1, ih.2]

theorem foldAttrs_iface (names : Nat → Option String) (as : List RtAttr) (st : AttrState) :
    (lastAttr RTA_OIF as = none → (foldAttrs names as st).iface = st.iface) ∧
      (∀ i nm, lastAttr RTA_OIF as = some i → names i = some nm →
        (foldAttrs names as st).iface = nm) := by
  induction as using List.reverseRecOn with
  | nil => simp [foldAttrs, lastAttr]
  | append_singleton as a ih =>
      rw [foldAttrs_append, lastAttr_snoc]
      simp only [foldAttrs, attrStep]
      by_cases h0 : a.rta_type = RTA_OIF
      · simp only [h0, if_true]
        refine ⟨fun h => by simp at h, ?_⟩
        intro i nm hi hn
        simp only [Option.some.injEq] at hi
        rw [hi, hn]; rfl
      · by_cases h1 : a.rta_type = RTA_GATEWAY
        · simp only [h0, h1, if_false, if_true]
          exact ih
        · simp only [h0, h1, if_false]
          exact ih

/-! ## The frame loop on encoded route records -/

theorem encodeAttrs_length_mod (as : List RtAttr) : (encodeAttrs as).length % 4 = 0 := by
  induction as with
  | nil => rfl
  | cons a as ih =>
      simp only [encodeAttrs, List.length_append, a.encode_size]
      omega

theorem Route.rtmsg_length (r : Route) : r.rtmsg.length = 12 := by
  simp [Route.rtmsg, le32]

theorem Route.encode_length (r : Route) :
    r.encode.length = 28 + (encodeAttrs r.attrs).length := by
  have h := encodeAttrs_length_mod r.attrs
  simp only [Route.encode, NlFrame.encode, Route.frame, List.length_append, pad4_length,
    r.rtmsg_length, le32, le16, List.length_cons, List.length_nil]
  omega

theorem NLMSG_ALIGN_aligned (n : Nat) (h : n % 4 = 0) (hlt : n < 2 ^ 31) : NLMSG_ALIGN n = n := by
  rw [NLMSG_ALIGN_eq]; omega

theorem RTM_PAYLOAD_eq (n : Nat) (h : 28 ≤ n) (hlt : n < 2 ^ 31) :
    RTM_PAYLOAD n = ((n - 28 : Nat) : Int) := by
  have e : NLMSG_SPACE sizeof_rtmsg = 28 := by decide
  unfold RTM_PAYLOAD
  have e2 : (n + 2 ^ 64 - 28) % 2 ^ 64 = n - 28 := by omega
  rw [e, e2, toInt32_small (n - 28) (by omega)]

/-- What the fields of an encoded route record read as. -/
theorem Route.reads (buf : Buf) (off : Nat) (r : Route) (hwf : r.wf)
    (hlen : r.encode.length < 2 ^ 31) (h : Holds buf off r.encode) :
    rd32 buf off = r.encode.length ∧ rd8 buf (off + 16) = r.rtm_family ∧
      rd8 buf (off + 16 + 4) = r.rtm_table ∧
      Holds buf (off + 28) (encodeAttrs r.attrs) := by
  have hl := r.encode_length
  obtain ⟨hf, ht, _⟩ := hwf
  simp only [Route.encode, NlFrame.encode, Route.frame, List.append_assoc] at h
  obtain ⟨h1, h2⟩ := (Holds_append buf _ _ off).1 h
  obtain ⟨_, h3⟩ := (Holds_append buf _ _ _).1 h2
  obtain ⟨_, h4⟩ := (Holds_append buf _ _ _).1 h3
  obtain ⟨_, h5⟩ := (Holds_append buf _ _ _).1 h4
  obtain ⟨_, h6⟩ := (Holds_append buf _ _ _).1 h5
  obtain ⟨h7, h8⟩ := (Holds_append buf _ _ _).1 h6
  obtain ⟨h9, _⟩ := (Holds_append buf _ _ _).1 h8
  simp only [le32, le16, List.length_cons, List.length_nil, r.rtmsg_length] at h7 h9
  refine ⟨?_, ?_, ?_, ?_⟩
  · rw [rd32_le32 buf off _ h1]
    simp only [List.length_append, r.rtmsg_length, sizeof_nlmsghdr]
    omega
  · have := Holds_getD buf _ _ h7 0 (by simp [r.rtmsg_length])
    simp only [Route.rtmsg, rd8] at this ⊢
    have e : off + 16 = off + (0 + 1 + 1 + 1 + 1) + (0 + 1 + 1) + (0 + 1 + 1) +
        (0 + 1 + 1 + 1 + 1) + (0 + 1 + 1 + 1 + 1) + 0 := by omega
    rw [e, this]; simp; omega
  · have := Holds_getD buf _ _ h7 4 (by simp [r.rtmsg_length])
    simp only [Route.rtmsg, rd8] at this ⊢
    have e : off + 16 + 4 = off + (0 + 1 + 1 + 1 + 1) + (0 + 1 + 1) + (0 + 1 + 1) +
        (0 + 1 + 1 + 1 + 1) + (0 + 1 + 1 + 1 + 1) + 4 := by omega
    rw [e, this]; simp; omega
  · have e : off + 28 = off + (0 + 1 + 1 + 1 + 1) + (0 + 1 + 1) + (0 + 1 + 1) +
        (0 + 1 + 1 + 1 + 1) + (0 + 1 + 1 + 1 + 1) + 12 := by omega
    rw [e]; exact h9

/-- One iteration of the outer loop on an encoded, well-formed route record. -/
theorem nl_loop_route (names : Nat → Option String) (buf : Buf) (fuel off nl_len gw : Nat)
    (iface : String) (r : Route) (hwf : r.wf) (h : Holds buf off r.encode)
    (hle : r.encode.length ≤ nl_len) (hlt : nl_len < 2 ^ 31) :
    nl_loop names buf (fuel + 1) off nl_len gw iface =
      if ¬ r.isMain then some ⟨-1, gw, iface⟩
      else if (walkAttrs names buf (off + 28) r.attrs ⟨gw, iface, false⟩).has_gw then
        some ⟨0, (walkAttrs names buf (off + 28) r.attrs ⟨gw, iface, false⟩).gw,
          (walkAttrs names buf (off + 28) r.attrs ⟨gw, iface, false⟩).iface⟩
      else nl_loop names buf fuel (off + r.encode.length) (nl_len - r.encode.length)
          (walkAttrs names buf (off + 28) r.attrs ⟨gw, iface, false⟩).gw
          (walkAttrs names buf (off + 28) r.attrs ⟨gw, iface, false⟩).iface := by
  obtain ⟨e1, e2, e3, e4⟩ := Route.reads buf off r hwf (by omega) h
  have hl := r.encode_length
  have hm := encodeAttrs_length_mod r.attrs
  have hok : NLMSG_OK buf off nl_len = true := by
    simp only [NLMSG_OK, sizeof_nlmsghdr, e1, Bool.and_eq_true, decide_eq_true_eq]
    omega
  have ha12 : NLMSG_ALIGN sizeof_rtmsg = 12 := by decide
  have hpay : RTM_PAYLOAD r.encode.length = ((encodeAttrs r.attrs).length : Nat) := by
    rw [RTM_PAYLOAD_eq _ (by omega) (by omega)]; congr 1; omega
  have hwalk := rta_loop_encoded names buf r.attrs hwf.2.2 (encodeAttrs r.attrs).length
    (off + 28) ⟨gw, iface, false⟩ e4 (by omega) (le_refl _)
  have hal : NLMSG_ALIGN r.encode.length = r.encode.length :=
    NLMSG_ALIGN_aligned _ (by omega) (by omega)
  have hnext : NLMSG_NEXT_len nl_len r.encode.length = nl_len - r.encode.length := by
    unfold NLMSG_NEXT_len; rw [hal]; omega
  rw [nl_loop, if_pos hok]
  simp only [sizeof_nlmsghdr, e1, e2, e3, ha12, hpay, Int.toNat_ofNat, hal, hnext]
  have e28 : off + 16 + 12 = off + 28 := by omega
  rw [e28, hwalk]
  by_cases hmain : r.isMain
  · have hm1 := hmain.1
    have hm2 := hmain.2
    simp [hmain, hm1, hm2]
  · have : r.rtm_family ≠ AF_INET ∨ r.rtm_table ≠ RT_TABLE_MAIN := by
      by_cases hf : r.rtm_family = AF_INET
      · exact Or.inr (fun ht => hmain ⟨hf, ht⟩)
      · exact Or.inl hf
    simp [hmain, this]

/-! ## One iteration of the reading loop -/

theorem memcpy_read (buf : Buf) (pbuf : Nat) (c : List Nat) (k : Nat) (hk : k < c.length) :
    memcpy_to buf pbuf c (pbuf + k) = chunk_buf c k := by
  simp [memcpy_to, chunk_buf, hk]

theorem memcpy_rd16 (buf : Buf) (pbuf : Nat) (c : List Nat) (k : Nat) (hk : k + 1 < c.length) :
    rd16 (memcpy_to buf pbuf c) (pbuf + k) = rd16 (chunk_buf c) k := by
  have h0 := memcpy_read buf pbuf c k (by omega)
  have h1 := memcpy_read buf pbuf c (k + 1) (by omega)
  simp only [rd16, rd8, Nat.add_assoc, h0, h1]

theorem memcpy_rd32 (buf : Buf) (pbuf : Nat) (c : List Nat) (k : Nat) (hk : k + 3 < c.length) :
    rd32 (memcpy_to buf pbuf c) (pbuf + k) = rd32 (chunk_buf c) k := by
  have h0 := memcpy_read buf pbuf c k (by omega)
  have h1 := memcpy_read buf pbuf c (k + 1) (by omega)
  have h2 := memcpy_read buf pbuf c (k + 2) (by omega)
  have h3 := memcpy_read buf pbuf c (k + 3) (by omega)
  simp only [rd32, rd8, Nat.add_assoc, h0, h1, h2, h3]

theorem NLMSG_OK_memcpy (buf : Buf) (pbuf : Nat) (c : List Nat) :
    NLMSG_OK (memcpy_to buf pbuf c) pbuf c.length = decide (lead_ok c) := by
  by_cases h : 16 ≤ c.length
  · have := memcpy_rd32 buf pbuf c 0 (by omega)
    simp only [Nat.add_zero] at this
    simp only [NLMSG_OK, lead_ok, sizeof_nlmsghdr, this, h, decide_True, Bool.true_and,
      true_and, Bool.decide_and]
  · simp [NLMSG_OK, lead_ok, sizeof_nlmsghdr, h]

/-- One iteration of the reading loop, in terms of the chunk that `recv` stored. -/
theorem read_loop_step (buf_len : Int) (dgram : List Nat) (rest : List RecvResult) (buf : Buf)
    (msg_len : Int) (pbuf : Nat) (reqs : List Nat)
    (hlen : (dgram.take (toSize (buf_len - msg_len))).length < 2 ^ 31) :
    read_nl_sock_loop buf_len (RecvResult.data dgram :: rest) buf msg_len pbuf reqs =
      if ¬ lead_ok (dgram.take (toSize (buf_len - msg_len))) ∨
          lead_type (dgram.take (toSize (buf_len - msg_len))) = NLMSG_ERROR then
        some ⟨-1, memcpy_to buf pbuf (dgram.take (toSize (buf_len - msg_len))),
          reqs ++ [toSize (buf_len - msg_len)]⟩
      else if lead_type (dgram.take (toSize (buf_len - msg_len))) = NLMSG_DONE then
        some ⟨msg_len, memcpy_to buf pbuf (dgram.take (toSize (buf_len - msg_len))),
          reqs ++ [toSize (buf_len - msg_len)]⟩
      else if lead_flags (dgram.take (toSize (buf_len - msg_len))) &&& NLM_F_MULTI = 0 then
        some ⟨msg_len + ((dgram.take (toSize (buf_len - msg_len))).length : Nat),
          memcpy_to buf pbuf (dgram.take (toSize (buf_len - msg_len))),
          reqs ++ [toSize (buf_len - msg_len)]⟩
      else
        read_nl_sock_loop buf_len rest
          (memcpy_to buf pbuf (dgram.take (toSize (buf_len - msg_len))))
          (msg_len + ((dgram.take (toSize (buf_len - msg_len))).length : Nat))
          (pbuf + (dgram.take (toSize (buf_len - msg_len))).length)
          (reqs ++ [toSize (buf_len - msg_len)]) := by
  rw [read_nl_sock_loop]
  generalize dgram.take (toSize (buf_len - msg_len)) = got at hlen ⊢
  have hti : toInt32 got.length = (got.length : Nat) := toInt32_small _ hlen
  have hof : ofInt32 ((got.length : Nat) : Int) = got.length := ofInt32_nat _ (by omega)
  simp only [hti, hof, Int.toNat_ofNat, NLMSG_OK_memcpy]
  by_cases hok : lead_ok got
  · have h16 := hok.1
    have hpos : ¬ ((got.length : Int) ≤ 0) := by omega
    have ht := memcpy_rd16 buf pbuf got 4 (by omega)
    have hf := memcpy_rd16 buf pbuf got 6 (by omega)
    simp only [hok, hpos, ht, hf, lead_type, lead_flags, decide_True, if_false, not_true,
      false_or, beq_iff_eq, Bool.or_eq_true, Bool.true_eq_false]
  · by_cases hpos : (got.length : Int) ≤ 0
    · simp [hok, hpos]
    · simp [hok, hpos]

/-- The inner loop needs no more iterations than `rt_len`: any two fuel values of at
least `rt_len` give the same result, so the fuel `rt_len` passed by the outer loop
never cuts the loop short. -/
theorem rta_loop_fuel_enough (names : Nat → Option String) (buf : Buf) :
    ∀ (fuel1 fuel2 rta : Nat) (rt_len : Int) (st : AttrState), rt_len < 2 ^ 31 →
      rt_len.toNat ≤ fuel1 → rt_len.toNat ≤ fuel2 →
      rta_loop names buf fuel1 rta rt_len st = rta_loop names buf fuel2 rta rt_len st := by
  intro fuel1
  induction fuel1 with
  | zero =>
      intro fuel2 rta rt_len st _ h1 _
      rw [rta_loop_zero_len names buf 0 rta rt_len st (by omega),
        rta_loop_zero_len names buf fuel2 rta rt_len st (by omega)]
  | succ n ih =>
      intro fuel2 rta rt_len st hlt h1 h2
      cases fuel2 with
      | zero =>
          rw [rta_loop_zero_len names buf (n + 1) rta rt_len st (by omega),
            rta_loop_zero_len names buf 0 rta rt_len st (by omega)]
      | succ m =>
          by_cases hok : RTA_OK buf rta rt_len = true
          · have hok2 := hok
            simp only [RTA_OK, sizeof_rtattr, Bool.and_eq_true, decide_eq_true_eq] at hok2
            obtain ⟨a1, a2, a3⟩ := hok2
            have hnext := RTA_NEXT_len_eq rt_len (rd16 buf rta) (by omega) hlt a3
            rw [rta_loop, rta_loop, if_pos hok, if_pos hok]
            exact ih m _ _ _ (by omega) (by omega) (by omega)
          · rw [rta_loop, rta_loop, if_neg hok, if_neg hok]

/-! ## Fuel -/

/-- A result of the outer loop does not depend on the fuel left over. -/
theorem nl_loop_fuel_succ (names : Nat → Option String) (buf : Buf) :
    ∀ (fuel nlhdr nl_len gw : Nat) (iface : String) (r : GwRet),
      nl_loop names buf fuel nlhdr nl_len gw iface = some r →
      nl_loop names buf (fuel + 1) nlhdr nl_len gw iface = some r := by
  intro fuel
  induction fuel with
  | zero => intro nlhdr nl_len gw iface r h; simp [nl_loop] at h
  | succ n ih =>
      intro nlhdr nl_len gw iface r h
      rw [nl_loop] at h ⊢
      by_cases hok : NLMSG_OK buf nlhdr nl_len = true
      · rw [if_pos hok] at h ⊢
        simp only at h ⊢
        by_cases hfam : rd8 buf (nlhdr + sizeof_nlmsghdr) ≠ AF_INET ∨
            rd8 buf (nlhdr + sizeof_nlmsghdr + 4) ≠ RT_TABLE_MAIN
        · rw [if_pos hfam] at h ⊢; exact h
        · rw [if_neg hfam] at h ⊢
          by_cases hg : (rta_loop names buf (RTM_PAYLOAD (rd32 buf nlhdr)).toNat
              (nlhdr + sizeof_nlmsghdr + NLMSG_ALIGN sizeof_rtmsg) (RTM_PAYLOAD (rd32 buf nlhdr))
              ⟨gw, iface, false⟩).has_gw = true
          · rw [if_pos hg] at h ⊢; exact h
          · rw [if_neg hg] at h ⊢; exact ih _ _ _ _ r h
      · rw [if_neg hok] at h ⊢; exact h

theorem get_default_gw_fuel_succ (fuel : Nat) (names : Nat → Option String) (env : SysEnv)
    (gw : Option Nat) (iface : Option String) (res : GwResult)
    (h : get_default_gw fuel names env gw iface = some res) :
    get_default_gw (fuel + 1) names env gw iface = some res := by
  cases gw with
  | none => exact h
  | some g =>
      cases iface with
      | none => exact h
      | some i =>
          simp only [get_default_gw] at h ⊢
          cases hrd : read_nl_sock (recv_results env
              (send_nl_req env RTM_GETROUTE 0 (List.replicate sizeof_rtmsg 0) sizeof_rtmsg).ret)
              env.stack BUFSIZE with
          | none => rw [hrd] at h; simp at h
          | some rd =>
              rw [hrd] at h
              simp only at h ⊢
              by_cases hle : ofInt32 rd.ret ≤ 0
              · rw [if_pos hle] at h ⊢; exact h
              · rw [if_neg hle] at h ⊢
                obtain ⟨o, ho, hm⟩ := Option.map_eq_some'.1 h
                rw [nl_loop_fuel_succ names rd.buf fuel 0 _ g i o ho]
                exact congrArg some hm

/-- A result of `get_default_gw` obtained with some fuel is the result with any larger fuel. -/
theorem get_default_gw_fuel_add (fuel : Nat) (names : Nat → Option String) (env : SysEnv)
    (gw : Option Nat) (iface : Option String) (res : GwResult)
    (h : get_default_gw fuel names env gw iface = some res) :
    ∀ k, get_default_gw (fuel + k) names env gw iface = some res := by
  intro k
  induction k with
  | zero => exact h
  | succ k ih => exact get_default_gw_fuel_succ (fuel + k) names env gw iface res ih

/-! ## The bridge from `get_default_gw` to its parsing loop -/

theorem toSize_eq (i : Int) (h0 : 0 ≤ i) (h1 : i < 2 ^ 31) : toSize i = i.toNat := by
  unfold toSize; omega

/-- The value returned by the reading loop never exceeds `buf_len`. -/
theorem read_loop_ret_le (buf_len : Int) (hlt : buf_len < 2 ^ 31) (recvs : List RecvResult) :
    ∀ (buf : Buf) (msg_len : Int) (pbuf : Nat) (reqs : List Nat) (r : ReadOut),
      0 ≤ msg_len → msg_len ≤ buf_len →
      read_nl_sock_loop buf_len recvs buf msg_len pbuf reqs = some r →
      -1 ≤ r.ret ∧ r.ret ≤ buf_len := by
  induction recvs with
  | nil => intro buf msg_len pbuf reqs r _ _ h; simp [read_nl_sock_loop] at h
  | cons x rest ih =>
      intro buf msg_len pbuf reqs r h0 h1 h
      cases x with
      | error =>
          simp only [read_nl_sock_loop, Option.some.injEq] at h
          subst h
          exact ⟨le_refl _, by show (-1 : Int) ≤ buf_len; omega⟩
      | data dgram =>
          have hsz := toSize_eq (buf_len - msg_len) (by omega) (by omega)
          have hgl : (dgram.take (toSize (buf_len - msg_len))).length ≤
              (buf_len - msg_len).toNat := by
            rw [List.length_take, hsz]; exact Nat.min_le_left _ _
          rw [read_loop_step buf_len dgram rest buf msg_len pbuf reqs (by omega)] at h
          split at h
          · simp only [Option.some.injEq] at h; subst h
            exact ⟨le_refl _, by show (-1 : Int) ≤ buf_len; omega⟩
          · split at h
            · simp only [Option.some.injEq] at h; subst h
              exact ⟨by show (-1 : Int) ≤ msg_len; omega, h1⟩
            · split at h
              · simp only [Option.some.injEq] at h; subst h
                constructor
                · show (-1 : Int) ≤ msg_len + _; omega
                · show msg_len + _ ≤ buf_len; omega
              · exact ih _ _ _ _ r (by omega) (by omega) h

theorem gw_read_ret_le (env : SysEnv) (rd : ReadOut) (h : gw_read env = some rd) :
    rd.ret ≤ 8192 :=
  (read_loop_ret_le 8192 (by norm_num) _ _ 0 0 [] rd (le_refl _) (by norm_num) h).2

/-- After a successful read, `get_default_gw` is its parsing loop run on the buffer
that `read_nl_sock` left, with `nl_len` the value it returned. -/
theorem get_default_gw_parse (fuel : Nat) (names : Nat → Option String) (env : SysEnv)
    (g : Nat) (i : String) (rd : ReadOut) (n : Nat) (hread : gw_read env = some rd)
    (hret : rd.ret = (n : Int)) (hpos : 0 < n) :
    get_default_gw fuel names env (some g) (some i) =
      (nl_loop names rd.buf fuel 0 n g i).map (fun o => ⟨o.ret, some o.gw, some o.iface⟩) := by
  have hle := gw_read_ret_le env rd hread
  have hn : ofInt32 rd.ret = n := by rw [hret]; exact ofInt32_nat n (by omega)
  unfold gw_read at hread
  simp only [get_default_gw, hread, hn]
  rw [if_neg (by omega)]

theorem gwAttr_value (g : Nat) : (gwAttr g).value = g % 2 ^ 32 := by
  simp only [gwAttr, RtAttr.value, rd32, rd8, le32, List.getD_cons_zero, List.getD_cons_succ]
  omega

theorem oifAttr_value (i : Nat) : (oifAttr i).value = i % 2 ^ 32 := by
  simp only [oifAttr, RtAttr.value, rd32, rd8, le32, List.getD_cons_zero, List.getD_cons_succ]
  omega

/-- A record whose only output-interface attribute is `oifAttr i` and whose only
gateway attribute is `gwAttr g` has its two attributes carrying four value bytes. -/
theorem valued_of_filters (as : List RtAttr) (i g : Nat)
    (hoif : as.filter (fun a => a.rta_type = RTA_OIF) = [oifAttr i])
    (hgw : as.filter (fun a => a.rta_type = RTA_GATEWAY) = [gwAttr g]) :
    ∀ a ∈ as, a.valued := by
  intro a ha ht
  rcases ht with ht | ht
  · have : a ∈ as.filter (fun a => a.rta_type = RTA_OIF) := by
      simp [List.mem_filter, ha, ht]
    rw [hoif] at this
    simp only [List.mem_singleton] at this
    subst this; simp [oifAttr, le32]
  · have : a ∈ as.filter (fun a => a.rta_type = RTA_GATEWAY) := by
      simp [List.mem_filter, ha, ht]
    rw [hgw] at this
    simp only [List.mem_singleton] at this
    subst this; simp [gwAttr, le32]

/-- The parsing loop on a buffer that starts with a main-table IPv4 record carrying
`oifAttr i` and `gwAttr g`: it returns 0 with the gateway and the interface name. -/
theorem nl_loop_both (names : Nat → Option String) (buf : Buf) (fuel off nl_len gw0 : Nat)
    (iface0 nm : String) (r : Route) (i g : Nat) (hwf : r.wf) (hmain : r.isMain)
    (hoif : r.attrs.filter (fun a => a.rta_type = RTA_OIF) = [oifAttr i])
    (hgw : r.attrs.filter (fun a => a.rta_type = RTA_GATEWAY) = [gwAttr g])
    (hi : i < 2 ^ 32) (hg : g < 2 ^ 32) (hname : names i = some nm)
    (h : Holds buf off r.encode) (hle : r.encode.length ≤ nl_len) (hlt : nl_len < 2 ^ 31) :
    nl_loop names buf (fuel + 1) off nl_len gw0 iface0 = some ⟨0, g, nm⟩ := by
  obtain ⟨_, _, _, e4⟩ := Route.reads buf off r hwf (by omega) h
  rw [nl_loop_route names buf fuel off nl_len gw0 iface0 r hwf h hle hlt,
    walkAttrs_valued names buf r.attrs (valued_of_filters r.attrs i g hoif hgw) _ _ e4]
  have hG : lastAttr RTA_GATEWAY r.attrs = some g := by
    simp only [lastAttr, hgw, List.getLast?_singleton, Option.map_some', gwAttr_value]
    congr 1; omega
  have hO : lastAttr RTA_OIF r.attrs = some i := by
    simp only [lastAttr, hoif, List.getLast?_singleton, Option.map_some', oifAttr_value]
    congr 1; omega
  obtain ⟨f1, f2⟩ := foldAttrs_gw names r.attrs ⟨gw0, iface0, false⟩
  have f3 := (foldAttrs_iface names r.attrs ⟨gw0, iface0, false⟩).2 i nm hO hname
  rw [hG] at f1 f2
  simp only [Option.isSome_some, Bool.or_true, Option.getD_some] at f1 f2
  simp [hmain, f1, f2, f3]

/-! ## Claims -/

/-- C1: when the receive buffer consists of exactly one well-formed frame carrying a
route record with family IPv4, table MAIN, an output-interface attribute with index
`i` and a gateway attribute with address `g`, and `read_nl_sock` returned that
frame's length, `get_default_gw` returns 0, stores `g` in `gw` and stores the name
of interface `i` in `iface`. -/
theorem c1_single_route_found (fuel : Nat) (names : Nat → Option String) (env : SysEnv)
    (rd : ReadOut) (r : Route) (i g gw0 : Nat) (iface0 nm : String)
    (hwf : r.wf) (hmain : r.isMain)
    (hoif : r.attrs.filter (fun a => a.rta_type = RTA_OIF) = [oifAttr i])
    (hgw : r.attrs.filter (fun a => a.rta_type = RTA_GATEWAY) = [gwAttr g])
    (hi : i < 2 ^ 32) (hg : g < 2 ^ 32) (hname : names i = some nm)
    (hread : gw_read env = some rd) (hret : rd.ret = (r.encode.length : Int))
    (hbuf : Holds rd.buf 0 r.encode) :
    get_default_gw (fuel + 1) names env (some gw0) (some iface0) =
      some ⟨0, some g, some nm⟩ := by
  have hle := gw_read_ret_le env rd hread
  have hpos : 0 < r.encode.length := by rw [r.encode_length]; omega
  rw [get_default_gw_parse (fuel + 1) names env gw0 iface0 rd r.encode.length hread hret hpos,
    nl_loop_both names rd.buf fuel 0 r.encode.length gw0 iface0 nm r i g hwf hmain hoif hgw
      hi hg hname hbuf (le_refl _) (by omega)]
  rfl

/-- C1, witness: the route `{oif = 2, gateway = 192.0.2.1}` delivered as one frame
followed by the end-of-dump frame. -/
theorem c1_single_route_found_witness :
    get_default_gw 1 exNames (exEnv [RecvResult.data exRoute.encode, RecvResult.data exDone.encode])
      (some 0) (some "") = some ⟨0, some 16908480, some "eth0"⟩ :=
  c1_single_route_found 0 exNames
    (exEnv [RecvResult.data exRoute.encode, RecvResult.data exDone.encode])
    ⟨44, memcpy_to (memcpy_to (fun _ => 0) 0 exRoute.encode) 44 exDone.encode, [8192, 8148]⟩
    exRoute 2 16908480 0 "" "eth0" (by decide) (by decide) (by decide) (by decide)
    (by decide) (by decide) (by decide) (by rfl) (by decide) (by decide)

/-- The parsing loop with no bytes left returns -1. -/
theorem nl_loop_empty (names : Nat → Option String) (buf : Buf) (fuel off nl_len gw : Nat)
    (iface : String) (h : nl_len < 16) :
    nl_loop names buf (fuel + 1) off nl_len gw iface = some ⟨-1, gw, iface⟩ := by
  have : NLMSG_OK buf off nl_len = false := by
    simp only [NLMSG_OK, sizeof_nlmsghdr, Bool.and_eq_false_imp, decide_eq_true_eq]
    intro h16; omega
  simp [nl_loop, this]

/-- A return value 0 of the parsing loop on encoded route records: the records passed
over are main-table IPv4 records without gateway, the record that ends the loop is a
main-table IPv4 record with a gateway, which is the value stored. -/
theorem nl_loop_zero_inv (names : Nat → Option String) (buf : Buf) (rs : List Route) :
    (∀ r ∈ rs, r.wf ∧ r.valued) → ∀ (fuel off gw : Nat) (iface : String) (res : GwRet),
      Holds buf off (encodeRoutes rs) → (encodeRoutes rs).length < 2 ^ 31 →
      nl_loop names buf fuel off (encodeRoutes rs).length gw iface = some res → res.ret = 0 →
      ∃ pre r post, rs = pre ++ r :: post ∧ (∀ p ∈ pre, p.isMain ∧ p.gateway = none) ∧
        r.isMain ∧ r.gateway = some res.gw ∧
        (∀ i nm, r.oif = some i → names i = some nm → res.iface = nm) := by
  induction rs with
  | nil =>
      intro _ fuel off gw iface res _ _ hres h0
      cases fuel with
      | zero => simp [nl_loop] at hres
      | succ n =>
          simp only [encodeRoutes, List.length_nil] at hres
          rw [nl_loop_empty names buf n off 0 gw iface (by norm_num)] at hres
          simp only [Option.some.injEq] at hres
          subst hres
          simp at h0
  | cons r rs ih =>
      intro hall fuel off gw iface res hh hlt hres h0
      obtain ⟨hwf, hval⟩ := hall r (List.mem_cons_self _ _)
      simp only [encodeRoutes, List.length_append] at hh hlt hres
      obtain ⟨hhr, hhrs⟩ := (Holds_append buf _ _ off).1 hh
      obtain ⟨_, _, _, e4⟩ := Route.reads buf off r hwf (by omega) hhr
      cases fuel with
      | zero => simp [nl_loop] at hres
      | succ n =>
          rw [nl_loop_route names buf n off _ gw iface r hwf hhr (by omega) hlt,
            walkAttrs_valued names buf r.attrs hval _ _ e4] at hres
          obtain ⟨f1, f2⟩ := foldAttrs_gw names r.attrs ⟨gw, iface, false⟩
          have f3 := foldAttrs_iface names r.attrs ⟨gw, iface, false⟩
          by_cases hmain : r.isMain
          · rw [if_neg (not_not.2 hmain)] at hres
            by_cases hg : (foldAttrs names r.attrs ⟨gw, iface, false⟩).has_gw = true
            · rw [if_pos hg] at hres
              simp only [Option.some.injEq] at hres
              subst hres
              rw [hg] at f1
              simp only [Bool.false_or] at f1
              obtain ⟨v, hv⟩ := Option.isSome_iff_exists.1 f1.symm
              refine ⟨[], r, rs, rfl, by simp, hmain, ?_, ?_⟩
              · show lastAttr RTA_GATEWAY r.attrs = _
                rw [f2, hv]; rfl
              · intro i nm hi hn
                exact f3.2 i nm hi hn
            · rw [if_neg hg] at hres
              have e : r.encode.length + (encodeRoutes rs).length - r.encode.length
                  = (encodeRoutes rs).length := by omega
              rw [e] at hres
              obtain ⟨pre, r1, post, h1, h2, h3, h4, h5⟩ :=
                ih (fun p hp => hall p (List.mem_cons_of_mem _ hp)) n _ _ _ res hhrs
                  (by omega) hres h0
              refine ⟨r :: pre, r1, post, by rw [h1]; rfl, ?_, h3, h4, h5⟩
              intro p hp
              rcases List.mem_cons.1 hp with hp | hp
              · subst hp
                refine ⟨hmain, ?_⟩
                show lastAttr RTA_GATEWAY p.attrs = none
                have hf : (foldAttrs names p.attrs ⟨gw, iface, false⟩).has_gw = false := by
                  simpa using hg
                rw [hf] at f1
                simp only [Bool.false_or] at f1
                exact Option.not_isSome_iff_eq_none.1 (by rw [← f1]; simp)
              · exact h2 p hp
          · rw [if_pos hmain] at hres
            simp only [Option.some.injEq] at hres
            subst hres
            simp at h0

/-- C3, counterexample: a record that carries only an output interface followed by a
record that carries only a gateway makes the call succeed, with `iface` taken from
the first record and `gw` from the second. -/
theorem c3_counterexample :
    exOifOnly.isMain ∧ ¬ exOifOnly.hasAttr RTA_GATEWAY ∧
      exGwOnly.isMain ∧ ¬ exGwOnly.hasAttr RTA_OIF ∧
      (∃ rd, gw_read (exEnv [RecvResult.data exOifOnly.encode, RecvResult.data exGwOnly.encode,
          RecvResult.data exDone.encode]) = some rd ∧
        rd.ret = ((encodeRoutes [exOifOnly, exGwOnly]).length : Int) ∧
        Holds rd.buf 0 (encodeRoutes [exOifOnly, exGwOnly])) ∧
      ∀ k, get_default_gw (2 + k) exNames
          (exEnv [RecvResult.data exOifOnly.encode, RecvResult.data exGwOnly.encode,
            RecvResult.data exDone.encode]) (some 0) (some "") =
        some ⟨0, some 16908480, some "eth0"⟩ := by
  refine ⟨by decide, by decide, by decide, by decide,
    ⟨⟨72, memcpy_to (memcpy_to (memcpy_to (fun _ => 0) 0 exOifOnly.encode) 36 exGwOnly.encode)
      72 exDone.encode, [8192, 8156, 8120]⟩, by rfl, by decide, by decide⟩,
    get_default_gw_fuel_add 2 _ _ _ _ _ (by decide)⟩

/-- C3, amended: whenever `get_default_gw` returns 0 on a well-formed route-response
buffer, the address stored in `gw` is the gateway of the first main-table IPv4 record
in buffer order that carries a gateway attribute, every record before it is a
main-table IPv4 record without a gateway attribute, and when that record also carries
an output-interface attribute whose index has a name, `iface` holds that name: a
record with only an output-interface attribute never produces a successful result. -/
theorem c3_first_gateway_wins (fuel : Nat) (names : Nat → Option String) (env : SysEnv)
    (rd : ReadOut) (rs : List Route) (gw0 : Nat) (iface0 : String) (res : GwResult)
    (hall : ∀ r ∈ rs, r.wf ∧ r.valued)
    (hread : gw_read env = some rd) (hret : rd.ret = ((encodeRoutes rs).length : Int))
    (hbuf : Holds rd.buf 0 (encodeRoutes rs))
    (hres : get_default_gw fuel names env (some gw0) (some iface0) = some res)
    (h0 : res.ret = 0) :
    ∃ pre r post g, rs = pre ++ r :: post ∧ (∀ p ∈ pre, p.isMain ∧ p.gateway = none) ∧
      r.isMain ∧ r.gateway = some g ∧ res.gw = some g ∧
      (∀ i nm, r.oif = some i → names i = some nm → res.iface = some nm) := by
  have hle := gw_read_ret_le env rd hread
  by_cases hpos : 0 < (encodeRoutes rs).length
  · rw [get_default_gw_parse fuel names env gw0 iface0 rd _ hread hret hpos] at hres
    obtain ⟨o, ho, hmap⟩ := Option.map_eq_some'.1 hres
    subst hmap
    obtain ⟨pre, r, post, h1, h2, h3, h4, h5⟩ :=
      nl_loop_zero_inv names rd.buf rs hall fuel 0 gw0 iface0 o hbuf (by omega) ho h0
    exact ⟨pre, r, post, o.gw, h1, h2, h3, h4, rfl, fun i nm hi hn => by
      show some o.iface = some nm
      rw [h5 i nm hi hn]⟩
  · have hz : rd.ret = 0 := by omega
    unfold gw_read at hread
    simp only [get_default_gw, hread, hz] at hres
    rw [if_pos (by decide)] at hres
    simp only [Option.some.injEq] at hres
    subst hres
    simp at h0

/-- C3 as amended, witness: a record with only an output interface followed by the
record `{oif = 2, gateway = 192.0.2.1}`. -/
theorem c3_first_gateway_wins_witness :
    ∃ pre r post g, [exOifOnly, exRoute] = pre ++ r :: post ∧
      (∀ p ∈ pre, p.isMain ∧ p.gateway = none) ∧ r.isMain ∧ r.gateway = some g ∧
      (⟨0, some 16908480, some "eth0"⟩ : GwResult).gw = some g ∧
      (∀ i nm, r.oif = some i → exNames i = some nm →
        (⟨0, some 16908480, some "eth0"⟩ : GwResult).iface = some nm) :=
  c3_first_gateway_wins 2 exNames
    (exEnv [RecvResult.data exOifOnly.encode, RecvResult.data exRoute.encode,
      RecvResult.data exDone.encode])
    ⟨80, memcpy_to (memcpy_to (memcpy_to (fun _ => 0) 0 exOifOnly.encode) 36 exRoute.encode) 80
      exDone.encode, [8192, 8156, 8112]⟩
    [exOifOnly, exRoute] 0 "" ⟨0, some 16908480, some "eth0"⟩ (by decide) (by rfl) (by decide)
    (by decide) (by decide) (by decide)

/-- C4 (the code diverges): the first `recv` delivers a route frame of a multi-part
dump and the second `recv` fails, so `read_nl_sock` returns -1; `get_default_gw` stores
-1 in the `unsigned int nl_len`, the test `nl_len <= 0` does not fire, the buffer is
parsed and the call returns 0 with `gw` and `iface` written. -/
theorem c4_failed_read_is_parsed :
    (gw_read (exEnv [RecvResult.data exRoute.encode, RecvResult.error])).map (fun r => r.ret)
        = some (-1) ∧
      ∀ k, get_default_gw (1 + k) exNames
        (exEnv [RecvResult.data exRoute.encode, RecvResult.error])
        (some 0) (some "") = some ⟨0, some 16908480, some "eth0"⟩ := by
  constructor
  · rfl
  · exact get_default_gw_fuel_add 1 _ _ _ _ _ (by decide)

/-- C5 (the code diverges): the datagram is one 32-byte frame whose gateway attribute
has no value bytes, and `read_nl_sock` returns 32; the word stored in `gw` is read at
offsets 32 to 35, so it is the stale content of the stack buffer beyond the 32 bytes
received: two runs whose buffers agree on the 32 bytes received and differ in the
stack byte at offset 32 store different gateways. -/
theorem c5_reads_beyond_length :
    (gw_read (exEnvStack 7 [RecvResult.data exBareGw.encode])).map (fun r => r.ret)
        = some 32 ∧
      (gw_read (exEnvStack 9 [RecvResult.data exBareGw.encode])).map (fun r => r.ret)
        = some 32 ∧
      (gw_read (exEnvStack 7 [RecvResult.data exBareGw.encode])).map
          (fun r => (List.range 32).map r.buf) =
        (gw_read (exEnvStack 9 [RecvResult.data exBareGw.encode])).map
          (fun r => (List.range 32).map r.buf) ∧
      (∀ k, get_default_gw (1 + k) exNames (exEnvStack 7 [RecvResult.data exBareGw.encode])
        (some 0) (some "") = some ⟨0, some 7, some ""⟩) ∧
      (∀ k, get_default_gw (1 + k) exNames (exEnvStack 9 [RecvResult.data exBareGw.encode])
        (some 0) (some "") = some ⟨0, some 9, some ""⟩) := by
  refine ⟨by rfl, by rfl, by decide, get_default_gw_fuel_add 1 _ _ _ _ _ (by decide),
    get_default_gw_fuel_add 1 _ _ _ _ _ (by decide)⟩

/-- The parsing loop over encoded main-table IPv4 records without gateway attribute,
followed by a frame that fails `NLMSG_OK`: it returns -1 with `gw` untouched. -/
theorem nl_loop_no_gw (names : Nat → Option String) (buf : Buf) (fs : List Route) :
    (∀ f ∈ fs, f.wf ∧ f.isMain ∧ ∀ a ∈ f.attrs, a.rta_type ≠ RTA_GATEWAY) →
      ∀ (fuel off nl_len gw : Nat) (iface : String),
      Holds buf off (encodeRoutes fs) → (encodeRoutes fs).length ≤ nl_len → nl_len < 2 ^ 31 →
      fs.length < fuel →
      (nl_len - (encodeRoutes fs).length < 16 ∨
        rd32 buf (off + (encodeRoutes fs).length) < 16 ∨
        nl_len - (encodeRoutes fs).length < rd32 buf (off + (encodeRoutes fs).length)) →
      ∃ iface1, nl_loop names buf fuel off nl_len gw iface = some ⟨-1, gw, iface1⟩ := by
  induction fs with
  | nil =>
      intro _ fuel off nl_len gw iface _ _ _ hfuel htr
      simp only [encodeRoutes, List.length_nil, Nat.sub_zero, Nat.add_zero] at htr
      cases fuel with
      | zero => simp at hfuel
      | succ n =>
          have : NLMSG_OK buf off nl_len = false := by
            simp only [NLMSG_OK, sizeof_nlmsghdr, Bool.and_eq_false_imp, decide_eq_true_eq,
              Bool.and_eq_false_imp, decide_eq_false_iff_not]
            intro h1 h2; omega
          exact ⟨iface, by simp [nl_loop, this]⟩
  | cons f fs ih =>
      intro hall fuel off nl_len gw iface hh hle hlt hfuel htr
      obtain ⟨hwf, hmain, hng⟩ := hall f (List.mem_cons_self _ _)
      simp only [encodeRoutes, List.length_append] at hh hle htr
      obtain ⟨hhf, hhfs⟩ := (Holds_append buf _ _ off).1 hh
      cases fuel with
      | zero => simp at hfuel
      | succ n =>
          obtain ⟨w1, w2⟩ := walkAttrs_no_gw names buf f.attrs hng (off + 28) ⟨gw, iface, false⟩
          rw [nl_loop_route names buf n off nl_len gw iface f hwf hhf (by omega) hlt,
            if_neg (not_not.2 hmain), w1, w2]
          simp only [Bool.false_eq_true, if_false]
          apply ih (fun p hp => hall p (List.mem_cons_of_mem _ hp)) n _ _ gw _ hhfs
            (by omega) (by omega) (by simpa using hfuel)
          have e1 : nl_len - f.encode.length - (encodeRoutes fs).length
              = nl_len - (f.encode.length + (encodeRoutes fs).length) := by omega
          have e2 : off + f.encode.length + (encodeRoutes fs).length
              = off + (f.encode.length + (encodeRoutes fs).length) := by omega
          rw [e1, e2]
          exact htr

/-- C6: in a buffer of valid length `n` where a (possibly empty) sequence of
well-formed, 4-byte-aligned main-table IPv4 frames without a gateway attribute is
followed by a truncated frame (fewer than 16 bytes remain, or its declared length is
below 16 or above the remaining byte count), `get_default_gw` stops at that frame and
returns -1; `gw` is left as it was. -/
theorem c6_truncated_frame_fails (fuel : Nat) (names : Nat → Option String) (env : SysEnv)
    (rd : ReadOut) (fs : List Route) (n gw0 : Nat) (iface0 : String)
    (hall : ∀ f ∈ fs, f.wf ∧ f.isMain ∧ ∀ a ∈ f.attrs, a.rta_type ≠ RTA_GATEWAY)
    (hread : gw_read env = some rd) (hret : rd.ret = (n : Int)) (hpos : 0 < n)
    (hbuf : Holds rd.buf 0 (encodeRoutes fs)) (hle : (encodeRoutes fs).length ≤ n)
    (htr : n - (encodeRoutes fs).length < 16 ∨ rd32 rd.buf (encodeRoutes fs).length < 16 ∨
      n - (encodeRoutes fs).length < rd32 rd.buf (encodeRoutes fs).length)
    (hfuel : fs.length < fuel) :
    ∃ iface1, get_default_gw fuel names env (some gw0) (some iface0) =
      some ⟨-1, some gw0, some iface1⟩ := by
  have hn := gw_read_ret_le env rd hread
  obtain ⟨iface1, h⟩ := nl_loop_no_gw names rd.buf fs hall fuel 0 n gw0 iface0 hbuf hle
    (by omega) hfuel (by simpa using htr)
  refine ⟨iface1, ?_⟩
  rw [get_default_gw_parse fuel names env gw0 iface0 rd n hread hret hpos, h]
  rfl

/-- C6, witness: a record with only an output interface, then a header that declares
40 bytes where 16 remain. -/
theorem c6_truncated_frame_fails_witness :
    ∃ iface1, get_default_gw 2 exNames
      (exEnv [RecvResult.data (exOifOnly.encode ++ exTruncated), RecvResult.data exDone.encode])
      (some 5) (some "") = some ⟨-1, some 5, some iface1⟩ :=
  c6_truncated_frame_fails 2 exNames
    (exEnv [RecvResult.data (exOifOnly.encode ++ exTruncated), RecvResult.data exDone.encode])
    ⟨52, memcpy_to (memcpy_to (fun _ => 0) 0 (exOifOnly.encode ++ exTruncated)) 52
      exDone.encode, [8192, 8140]⟩
    [exOifOnly] 52 5 "" (by decide) (by rfl) (by rfl) (by decide) (by decide) (by decide)
    (by decide) (by decide)

theorem lead_bad_iff (c : List Nat) : lead_bad c ↔ ¬ lead_ok c ∨ lead_type c = NLMSG_ERROR := by
  unfold lead_bad lead_ok
  constructor
  · rintro (h | h | h | h)
    · exact Or.inl (fun k => by omega)
    · exact Or.inl (fun k => by omega)
    · exact Or.inl (fun k => by omega)
    · exact Or.inr h
  · rintro (h | h)
    · by_cases h1 : c.length < 16
      · exact Or.inl h1
      · by_cases h2 : rd32 (chunk_buf c) 0 < 16
        · exact Or.inr (Or.inl h2)
        · refine Or.inr (Or.inr (Or.inl ?_))
          by_contra h3
          exact h ⟨by omega, by omega, by omega⟩
    · exact Or.inr (Or.inr (Or.inr h))

/-- While the chunks stored are continuing ones, the loop consumes them one per
`recv`, storing each directly after the previous one. -/
theorem read_loop_prefix (buf_len : Int) (hlt : buf_len < 2 ^ 31) (pre : List (List Nat))
    (rest : List RecvResult) :
    ∀ (buf : Buf) (msg_len : Int) (pbuf : Nat) (reqs : List Nat),
      0 ≤ msg_len → msg_len ≤ buf_len →
      (∀ c ∈ recv_parts (buf_len - msg_len).toNat pre, Continuing c) →
      ∃ reqs1, reqs1.length = pre.length ∧
        read_nl_sock_loop buf_len (pre.map RecvResult.data ++ rest) buf msg_len pbuf reqs =
          read_nl_sock_loop buf_len rest
            (store_chunks buf pbuf (recv_parts (buf_len - msg_len).toNat pre))
            (msg_len + (total_len (recv_parts (buf_len - msg_len).toNat pre) : Nat))
            (pbuf + total_len (recv_parts (buf_len - msg_len).toNat pre))
            (reqs ++ reqs1) := by
  induction pre with
  | nil =>
      intro buf msg_len pbuf reqs _ _ _
      exact ⟨[], rfl, by simp [recv_parts, total_len, store_chunks]⟩
  | cons d ds ih =>
      intro buf msg_len pbuf reqs h0 h1 hc
      have hsz := toSize_eq (buf_len - msg_len) (by omega) (by omega)
      have hgl : (d.take (buf_len - msg_len).toNat).length ≤ (buf_len - msg_len).toNat := by
        rw [List.length_take]; exact Nat.min_le_left _ _
      have hcont : Continuing (d.take (buf_len - msg_len).toNat) :=
        hc _ (List.mem_cons_self _ _)
      obtain ⟨c1, c2, c3, c4⟩ := hcont
      have hcap : (buf_len - (msg_len + ((d.take (buf_len - msg_len).toNat).length : Nat))).toNat
          = (buf_len - msg_len).toNat - (d.take (buf_len - msg_len).toNat).length := by omega
      obtain ⟨reqs1, hr1, hr2⟩ := ih (memcpy_to buf pbuf (d.take (buf_len - msg_len).toNat))
        (msg_len + ((d.take (buf_len - msg_len).toNat).length : Nat))
        (pbuf + (d.take (buf_len - msg_len).toNat).length)
        (reqs ++ [(buf_len - msg_len).toNat]) (by omega) (by omega)
        (by
          intro c hcm
          rw [hcap] at hcm
          exact hc c (List.mem_cons_of_mem _ hcm))
      refine ⟨(buf_len - msg_len).toNat :: reqs1, by simp [hr1], ?_⟩
      simp only [List.map_cons, List.cons_append]
      rw [read_loop_step buf_len d _ buf msg_len pbuf reqs (by rw [hsz]; omega), hsz,
        if_neg (by simp [c1, c2]), if_neg c3, if_neg c4, hr2, hcap]
      simp only [recv_parts, total_len, store_chunks, List.append_assoc, List.singleton_append,
        Nat.cast_add, Int.add_assoc, Nat.add_assoc]

/-- Chunks that fit the free space are stored whole. -/
theorem recv_parts_fit (ds : List (List Nat)) :
    ∀ cap, total_len ds ≤ cap → recv_parts cap ds = ds := by
  induction ds with
  | nil => intro _ _; rfl
  | cons d ds ih =>
      intro cap h
      simp only [total_len] at h
      have : d.take cap = d := List.take_of_length_le (by omega)
      simp only [recv_parts, this]
      rw [ih _ (by omega)]

theorem store_chunks_before (cs : List (List Nat)) :
    ∀ (buf : Buf) (pbuf o : Nat) (ys : List Nat), Holds buf o ys → o + ys.length ≤ pbuf →
      Holds (store_chunks buf pbuf cs) o ys := by
  induction cs with
  | nil => intro buf pbuf o ys h _; exact h
  | cons c cs ih =>
      intro buf pbuf o ys h hle
      exact ih _ _ o ys (Holds_memcpy_before buf pbuf o c ys h hle) (by omega)

/-- The stored chunks lie in the buffer in order, each once. -/
theorem store_chunks_holds (cs : List (List Nat)) :
    ∀ (buf : Buf) (pbuf : Nat), Holds (store_chunks buf pbuf cs) pbuf cs.flatten := by
  induction cs with
  | nil => intro buf pbuf; trivial
  | cons c cs ih =>
      intro buf pbuf
      show Holds (store_chunks (memcpy_to buf pbuf c) (pbuf + c.length) cs) pbuf
        (c ++ cs.flatten)
      exact (Holds_append _ _ _ pbuf).2
        ⟨store_chunks_before cs _ _ pbuf c (Holds_memcpy buf pbuf c) (le_refl _), ih _ _⟩

/-- The chunks stored never exceed the free space. -/
theorem recv_parts_total_le (ds : List (List Nat)) :
    ∀ cap, total_len (recv_parts cap ds) ≤ cap := by
  induction ds with
  | nil => intro cap; exact Nat.zero_le _
  | cons d ds ih =>
      intro cap
      have h1 : (d.take cap).length ≤ cap := by
        rw [List.length_take]; exact Nat.min_le_left _ _
      have h2 := ih (cap - (d.take cap).length)
      show (d.take cap).length + total_len (recv_parts (cap - (d.take cap).length) ds) ≤ cap
      omega

theorem chunk_holds (c : List Nat) : Holds (chunk_buf c) 0 c := by
  apply Holds_of_getD
  intro k _
  simp [chunk_buf]

/-- What the leading header of an encoded frame reads as. -/
theorem NlFrame.lead (f : NlFrame) (hwf : f.wf) :
    rd32 (chunk_buf f.encode) 0 = 16 + f.payload.length ∧
      lead_type f.encode = f.nlmsg_type ∧ lead_flags f.encode = f.nlmsg_flags ∧
      16 + f.payload.length ≤ f.encode.length := by
  obtain ⟨ht, hf, hl⟩ := hwf
  simp only [sizeof_nlmsghdr] at hl
  have h := chunk_holds f.encode
  have hlen : 16 + f.payload.length ≤ f.encode.length := by
    simp only [NlFrame.encode, List.length_append, le32, le16, List.length_cons,
      List.length_nil]
    omega
  simp only [lead_type, lead_flags]
  generalize chunk_buf f.encode = b at h ⊢
  simp only [NlFrame.encode, List.append_assoc] at h
  obtain ⟨h1, h2⟩ := (Holds_append b _ _ 0).1 h
  obtain ⟨h3, h4⟩ := (Holds_append b _ _ _).1 h2
  obtain ⟨h5, _⟩ := (Holds_append b _ _ _).1 h4
  simp only [le32, le16, List.length_cons, List.length_nil] at h3 h5
  refine ⟨?_, ?_, ?_, hlen⟩
  · rw [rd32_le32 b 0 _ h1]; simp only [sizeof_nlmsghdr]; omega
  · have e := rd16_le16 b _ _ h3
    simp only [Nat.zero_add] at e
    rw [e]; omega
  · have e := rd16_le16 b _ _ h5
    simp only [Nat.zero_add] at e
    rw [e]; omega

/-- An encoded well-formed frame that carries the multi-part flag and is neither an
error nor the end marker is a continuing chunk. -/
theorem NlFrame.continuing (f : NlFrame) (hwf : f.wf) (hm : f.nlmsg_flags &&& NLM_F_MULTI ≠ 0)
    (he : f.nlmsg_type ≠ NLMSG_ERROR) (hd : f.nlmsg_type ≠ NLMSG_DONE) :
    Continuing f.encode := by
  obtain ⟨l1, l2, l3, l4⟩ := f.lead hwf
  refine ⟨⟨by omega, by omega, by omega⟩, by rw [l2]; exact he, by rw [l2]; exact hd, ?_⟩
  rw [l3]; exact hm

/-- C8: three well-formed frames carrying the MULTI flag followed by a DONE frame,
delivered by four successive `recv` calls and fitting the buffer: `read_nl_sock`
succeeds, returns the sum of the byte lengths of the three frames, leaves exactly
those three frames, in order and each once, in `buf[0 .. return value)`, and has
called `recv` four times, whatever further results the socket would deliver. -/
theorem c8_multi_stream_consumed (buf_len : Int) (f1 f2 f3 d : NlFrame)
    (post : List RecvResult) (buf0 : Buf)
    (hlt : buf_len < 2 ^ 31)
    (hfit : ((f1.encode.length + f2.encode.length + f3.encode.length + d.encode.length : Nat)
      : Int) ≤ buf_len)
    (h1 : f1.wf ∧ f1.nlmsg_flags &&& NLM_F_MULTI ≠ 0 ∧ f1.nlmsg_type ≠ NLMSG_ERROR ∧
      f1.nlmsg_type ≠ NLMSG_DONE)
    (h2 : f2.wf ∧ f2.nlmsg_flags &&& NLM_F_MULTI ≠ 0 ∧ f2.nlmsg_type ≠ NLMSG_ERROR ∧
      f2.nlmsg_type ≠ NLMSG_DONE)
    (h3 : f3.wf ∧ f3.nlmsg_flags &&& NLM_F_MULTI ≠ 0 ∧ f3.nlmsg_type ≠ NLMSG_ERROR ∧
      f3.nlmsg_type ≠ NLMSG_DONE)
    (hd : d.wf ∧ d.nlmsg_type = NLMSG_DONE) :
    ∃ r, read_nl_sock
        (RecvResult.data f1.encode :: RecvResult.data f2.encode :: RecvResult.data f3.encode ::
          RecvResult.data d.encode :: post) buf0 buf_len = some r ∧
      r.ret = ((f1.encode.length + f2.encode.length + f3.encode.length : Nat) : Int) ∧
      Holds r.buf 0 (f1.encode ++ f2.encode ++ f3.encode) ∧
      r.requests.length = 4 := by
  have hfitn : total_len [f1.encode, f2.encode, f3.encode] ≤ (buf_len - 0).toNat := by
    simp only [total_len]; omega
  have hparts := recv_parts_fit [f1.encode, f2.encode, f3.encode] _ hfitn
  obtain ⟨reqs1, hr1, hr2⟩ := read_loop_prefix buf_len hlt [f1.encode, f2.encode, f3.encode]
    (RecvResult.data d.encode :: post) buf0 0 0 [] (le_refl _) (by omega)
    (by
      rw [hparts]
      intro c hc
      simp only [List.mem_cons, List.mem_singleton, List.not_mem_nil, or_false] at hc
      rcases hc with hc | hc | hc
      · subst hc; exact f1.continuing h1.1 h1.2.1 h1.2.2.1 h1.2.2.2
      · subst hc; exact f2.continuing h2.1 h2.2.1 h2.2.2.1 h2.2.2.2
      · subst hc; exact f3.continuing h3.1 h3.2.1 h3.2.2.1 h3.2.2.2)
  rw [hparts] at hr2
  obtain ⟨l1, l2, l3, l4⟩ := d.lead hd.1
  have htot : total_len [f1.encode, f2.encode, f3.encode] =
      f1.encode.length + f2.encode.length + f3.encode.length := by
    simp only [total_len]; omega
  have hsz := toSize_eq (buf_len - (0 + (total_len [f1.encode, f2.encode, f3.encode] : Nat)))
    (by omega) (by omega)
  have htake : d.encode.take
      (toSize (buf_len - (0 + (total_len [f1.encode, f2.encode, f3.encode] : Nat)))) = d.encode :=
    List.take_of_length_le (by rw [hsz]; omega)
  have hstep := read_loop_step buf_len d.encode post
    (store_chunks buf0 0 [f1.encode, f2.encode, f3.encode])
    (0 + (total_len [f1.encode, f2.encode, f3.encode] : Nat))
    (0 + total_len [f1.encode, f2.encode, f3.encode]) ([] ++ reqs1)
    (by rw [htake]; omega)
  rw [htake] at hstep
  have hok : lead_ok d.encode := ⟨by omega, by omega, by omega⟩
  have hne : ¬ (¬ lead_ok d.encode ∨ lead_type d.encode = NLMSG_ERROR) := by
    rw [l2, hd.2]; simp [hok, NLMSG_DONE, NLMSG_ERROR]
  rw [if_neg hne, if_pos (by rw [l2]; exact hd.2)] at hstep
  refine ⟨_, hr2.trans hstep, ?_, ?_, ?_⟩
  · show (0 : Int) + _ = _
    rw [htot]; omega
  · show Holds (memcpy_to _ _ _) 0 _
    have hs := store_chunks_holds [f1.encode, f2.encode, f3.encode] buf0 0
    simp only [List.flatten, List.append_nil] at hs
    rw [← List.append_assoc] at hs
    exact Holds_memcpy_before _ _ 0 _ _ hs
      (by simp only [List.length_append, htot]; omega)
  · show ([] ++ reqs1 ++ [_]).length = 4
    simp [hr1]

/-- C8, witness: three route frames of a dump, then the end-of-dump frame. -/
theorem c8_multi_stream_consumed_witness :
    ∃ r, read_nl_sock
        (RecvResult.data exRoute.frame.encode :: RecvResult.data exOifOnly.frame.encode ::
          RecvResult.data exGwOnly.frame.encode :: RecvResult.data exDone.encode ::
          [RecvResult.error]) (fun _ => 0) 8192 = some r ∧
      r.ret = ((exRoute.frame.encode.length + exOifOnly.frame.encode.length +
        exGwOnly.frame.encode.length : Nat) : Int) ∧
      Holds r.buf 0 (exRoute.frame.encode ++ exOifOnly.frame.encode ++
        exGwOnly.frame.encode) ∧
      r.requests.length = 4 :=
  c8_multi_stream_consumed 8192 exRoute.frame exOifOnly.frame exGwOnly.frame exDone
    [RecvResult.error] (fun _ => 0) (by decide) (by decide) (by decide) (by decide)
    (by decide) (by decide)

/-- C9, counterexample: one `recv` delivers a route frame of a dump directly followed
by the DONE frame. The data received contains a DONE frame, yet `read_nl_sock` counts
the whole chunk, calls `recv` a second time (here that call fails), and with no
further result it stays blocked in that second `recv`. -/
theorem c9_counterexample :
    lead_type exDone.encode = NLMSG_DONE ∧
      (read_nl_sock [RecvResult.data (exRoute.encode ++ exDone.encode), RecvResult.error]
          (fun _ => 0) 8192).map (fun r => (r.ret, r.requests)) = some (-1, [8192, 8128]) ∧
      (read_nl_sock [RecvResult.data (exRoute.encode ++ exDone.encode)]
          (fun _ => 0) 8192).isNone = true := by
  refine ⟨by decide, by decide, by decide⟩

/-- C9, amended: `read_nl_sock` stops reading as soon as the leading frame of a `recv`
result is of type DONE or lacks the MULTI flag: after chunks whose leading frames are
sound multi-part frames, such a chunk makes the call return a non-negative length
with no further `recv`. Frames behind the leading frame of a chunk are not examined:
as long as every chunk received so far has a continuing leading frame, the call is
still waiting in `recv`, whatever those chunks contain after their leading frame. -/
theorem c9_stops_on_leading_frame (buf_len : Int) (pre : List (List Nat)) (c : List Nat)
    (post : List RecvResult) (buf0 : Buf) (h0 : 0 ≤ buf_len) (hlt : buf_len < 2 ^ 31)
    (hpre : ∀ p ∈ recv_parts buf_len.toNat pre, Continuing p)
    (hfin : lead_final (c.take (buf_len.toNat - total_len (recv_parts buf_len.toNat pre)))) :
    (∃ r, read_nl_sock (pre.map RecvResult.data ++ RecvResult.data c :: post) buf0 buf_len
        = some r ∧ 0 ≤ r.ret ∧ r.requests.length = pre.length + 1) ∧
      read_nl_sock (pre.map RecvResult.data) buf0 buf_len = none := by
  have e0 : (buf_len - 0).toNat = buf_len.toNat := by simp
  constructor
  · obtain ⟨reqs1, hr1, hr2⟩ := read_loop_prefix buf_len hlt pre (RecvResult.data c :: post)
      buf0 0 0 [] (le_refl _) h0 (by rw [e0]; exact hpre)
    rw [e0] at hr2
    have htl := recv_parts_total_le pre buf_len.toNat
    have hsz := toSize_eq (buf_len - (0 + (total_len (recv_parts buf_len.toNat pre) : Nat)))
      (by omega) (by omega)
    have hcap : (buf_len - (0 + (total_len (recv_parts buf_len.toNat pre) : Nat))).toNat
        = buf_len.toNat - total_len (recv_parts buf_len.toNat pre) := by omega
    have hgl : (c.take (buf_len.toNat - total_len (recv_parts buf_len.toNat pre))).length
        ≤ buf_len.toNat - total_len (recv_parts buf_len.toNat pre) := by
      rw [List.length_take]; exact Nat.min_le_left _ _
    have hstep := read_loop_step buf_len c post
      (store_chunks buf0 0 (recv_parts buf_len.toNat pre))
      (0 + (total_len (recv_parts buf_len.toNat pre) : Nat))
      (0 + total_len (recv_parts buf_len.toNat pre)) ([] ++ reqs1)
      (by rw [hsz, hcap]; omega)
    rw [hsz, hcap] at hstep
    obtain ⟨f1, f2, f3⟩ := hfin
    rw [if_neg (by simp [f1, f2])] at hstep
    by_cases hd : lead_type (c.take (buf_len.toNat - total_len (recv_parts buf_len.toNat pre)))
        = NLMSG_DONE
    · rw [if_pos hd] at hstep
      refine ⟨_, hr2.trans hstep, ?_, ?_⟩
      · show (0 : Int) ≤ 0 + _; omega
      · show ([] ++ reqs1 ++ [_]).length = _
        simp [hr1]
    · have hm : lead_flags (c.take (buf_len.toNat - total_len (recv_parts buf_len.toNat pre)))
          &&& NLM_F_MULTI = 0 := by
        rcases f3 with f3 | f3
        · exact absurd f3 hd
        · exact f3
      rw [if_neg hd, if_pos hm] at hstep
      refine ⟨_, hr2.trans hstep, ?_, ?_⟩
      · show (0 : Int) ≤ 0 + _ + _; omega
      · show ([] ++ reqs1 ++ [_]).length = _
        simp [hr1]
  · obtain ⟨reqs1, _, hr2⟩ := read_loop_prefix buf_len hlt pre [] buf0 0 0 [] (le_refl _) h0
      (by rw [e0]; exact hpre)
    simp only [List.append_nil] at hr2
    show read_nl_sock_loop buf_len (pre.map RecvResult.data) buf0 0 0 [] = none
    rw [hr2]
    rfl

/-- C9 as amended, witness: a route frame of a dump, then the DONE frame in a chunk
of its own. -/
theorem c9_stops_on_leading_frame_witness :
    (∃ r, read_nl_sock ([exRoute.encode].map RecvResult.data ++
          RecvResult.data exDone.encode :: [RecvResult.error]) (fun _ => 0) 8192
        = some r ∧ 0 ≤ r.ret ∧ r.requests.length = [exRoute.encode].length + 1) ∧
      read_nl_sock ([exRoute.encode].map RecvResult.data) (fun _ => 0) 8192 = none :=
  c9_stops_on_leading_frame 8192 [exRoute.encode] exDone.encode [RecvResult.error]
    (fun _ => 0) (by decide) (by decide) (by decide) (by decide)

/-- C10: after any number of continuing chunks, a `recv` that fails, or returns no
data, or returns data whose leading frame is malformed (fewer than 16 bytes received,
declared length below 16 or above the bytes received) or has type ERROR, makes
`read_nl_sock` return -1 at that point, whatever had been accumulated, and no
further `recv` is issued. -/
theorem c10_bad_recv_fails (buf_len : Int) (pre : List (List Nat)) (bad : RecvResult)
    (post : List RecvResult) (buf0 : Buf) (h0 : 0 ≤ buf_len) (hlt : buf_len < 2 ^ 31)
    (hpre : ∀ p ∈ recv_parts buf_len.toNat pre, Continuing p)
    (hbad : bad = RecvResult.error ∨ ∃ d, bad = RecvResult.data d ∧
      lead_bad (d.take (buf_len.toNat - total_len (recv_parts buf_len.toNat pre)))) :
    ∃ r, read_nl_sock (pre.map RecvResult.data ++ bad :: post) buf0 buf_len = some r ∧
      r.ret = -1 ∧ r.requests.length = pre.length + 1 := by
  have e0 : (buf_len - 0).toNat = buf_len.toNat := by simp
  obtain ⟨reqs1, hr1, hr2⟩ := read_loop_prefix buf_len hlt pre (bad :: post)
    buf0 0 0 [] (le_refl _) h0 (by rw [e0]; exact hpre)
  rw [e0] at hr2
  rcases hbad with hb | ⟨d, hb, hd⟩
  · subst hb
    rw [read_nl_sock_loop] at hr2
    exact ⟨_, hr2, rfl, by show ([] ++ reqs1 ++ [_]).length = _; simp [hr1]⟩
  · subst hb
    have htl := recv_parts_total_le pre buf_len.toNat
    · have hsz := toSize_eq (buf_len - (0 + (total_len (recv_parts buf_len.toNat pre) : Nat)))
        (by omega) (by omega)
      have hcap : (buf_len - (0 + (total_len (recv_parts buf_len.toNat pre) : Nat))).toNat
          = buf_len.toNat - total_len (recv_parts buf_len.toNat pre) := by omega
      have hgl : (d.take (buf_len.toNat - total_len (recv_parts buf_len.toNat pre))).length
          ≤ buf_len.toNat - total_len (recv_parts buf_len.toNat pre) := by
        rw [List.length_take]; exact Nat.min_le_left _ _
      have hstep := read_loop_step buf_len d post
        (store_chunks buf0 0 (recv_parts buf_len.toNat pre))
        (0 + (total_len (recv_parts buf_len.toNat pre) : Nat))
        (0 + total_len (recv_parts buf_len.toNat pre)) ([] ++ reqs1)
        (by rw [hsz, hcap]; omega)
      rw [hsz, hcap, if_pos ((lead_bad_iff _).1 hd)] at hstep
      exact ⟨_, hr2.trans hstep, rfl, by show ([] ++ reqs1 ++ [_]).length = _; simp [hr1]⟩

/-- C10, witness: a route frame of a dump, then a chunk whose leading frame declares
40 bytes where 16 were received. -/
theorem c10_bad_recv_fails_witness :
    ∃ r, read_nl_sock ([exRoute.encode].map RecvResult.data ++
        RecvResult.data exTruncated :: [RecvResult.data exDone.encode]) (fun _ => 0) 8192
      = some r ∧ r.ret = -1 ∧ r.requests.length = [exRoute.encode].length + 1 :=
  c10_bad_recv_fails 8192 [exRoute.encode] (RecvResult.data exTruncated)
    [RecvResult.data exDone.encode] (fun _ => 0) (by decide) (by decide) (by decide)
    (Or.inr ⟨exTruncated, rfl, by decide⟩)

/-! ## Claims on the full buffer and on the failure value -/

/-- After continuing chunks, a rejected `recv` result ends the reading with -1; the
size asked of that last `recv` is the space the chunks left free. -/
theorem read_prefix_then_bad (buf_len : Int) (pre : List (List Nat)) (bad : RecvResult)
    (post : List RecvResult) (buf0 : Buf) (h0 : 0 ≤ buf_len) (hlt : buf_len < 2 ^ 31)
    (hpre : ∀ p ∈ recv_parts buf_len.toNat pre, Continuing p)
    (hbad : lead_bad (last_part (buf_len.toNat - total_len (recv_parts buf_len.toNat pre)) bad)) :
    ∃ r, read_nl_sock (pre.map RecvResult.data ++ bad :: post) buf0 buf_len = some r ∧
      r.ret = -1 ∧ r.requests.length = pre.length + 1 ∧
      r.requests.getLast? = some (buf_len.toNat - total_len (recv_parts buf_len.toNat pre)) := by
  have e0 : (buf_len - 0).toNat = buf_len.toNat := by simp
  obtain ⟨reqs1, hr1, hr2⟩ := read_loop_prefix buf_len hlt pre (bad :: post)
    buf0 0 0 [] (le_refl _) h0 (by rw [e0]; exact hpre)
  rw [e0] at hr2
  have htl := recv_parts_total_le pre buf_len.toNat
  have hsz := toSize_eq (buf_len - (0 + (total_len (recv_parts buf_len.toNat pre) : Nat)))
    (by omega) (by omega)
  have hcap : (buf_len - (0 + (total_len (recv_parts buf_len.toNat pre) : Nat))).toNat
      = buf_len.toNat - total_len (recv_parts buf_len.toNat pre) := by omega
  cases bad with
  | error =>
      rw [read_nl_sock_loop, hsz, hcap] at hr2
      exact ⟨_, hr2, rfl, by show ([] ++ reqs1 ++ [_]).length = _; simp [hr1],
        by show ([] ++ reqs1 ++ [_]).getLast? = _; simp⟩
  | data d =>
      have hgl : (d.take (buf_len.toNat - total_len (recv_parts buf_len.toNat pre))).length
          ≤ buf_len.toNat - total_len (recv_parts buf_len.toNat pre) := by
        rw [List.length_take]; exact Nat.min_le_left _ _
      have hstep := read_loop_step buf_len d post
        (store_chunks buf0 0 (recv_parts buf_len.toNat pre))
        (0 + (total_len (recv_parts buf_len.toNat pre) : Nat))
        (0 + total_len (recv_parts buf_len.toNat pre)) ([] ++ reqs1)
        (by rw [hsz, hcap]; omega)
      have hbad2 : lead_bad (d.take (buf_len.toNat - total_len (recv_parts buf_len.toNat pre))) :=
        hbad
      rw [hsz, hcap, if_pos ((lead_bad_iff _).1 hbad2)] at hstep
      exact ⟨_, hr2.trans hstep, rfl, by show ([] ++ reqs1 ++ [_]).length = _; simp [hr1],
        by show ([] ++ reqs1 ++ [_]).getLast? = _; simp⟩

/-- C11: when the frames of a multi-part stream fill the whole buffer (the accumulated
length reaches `buf_len`) before a DONE frame or a frame without the MULTI flag has
led a chunk, the next `recv` is asked for 0 bytes and, whatever it delivers,
`read_nl_sock` returns -1, not a partial length; `recv` stores at most the number of
bytes it is asked for. -/
theorem c11_full_buffer_fails (buf_len : Int) (pre : List (List Nat)) (next : RecvResult)
    (post : List RecvResult) (buf0 : Buf) (h0 : 0 ≤ buf_len) (hlt : buf_len < 2 ^ 31)
    (hpre : ∀ p ∈ recv_parts buf_len.toNat pre, Continuing p)
    (hfull : total_len (recv_parts buf_len.toNat pre) = buf_len.toNat) :
    ∃ r, read_nl_sock (pre.map RecvResult.data ++ next :: post) buf0 buf_len = some r ∧
      r.ret = -1 ∧ r.requests.length = pre.length + 1 ∧ r.requests.getLast? = some 0 := by
  have hbad : lead_bad
      (last_part (buf_len.toNat - total_len (recv_parts buf_len.toNat pre)) next) := by
    rw [hfull, Nat.sub_self]
    left
    cases next with
    | error => simp [last_part]
    | data d => simp [last_part]
  obtain ⟨r, h1, h2, h3, h4⟩ :=
    read_prefix_then_bad buf_len pre next post buf0 h0 hlt hpre hbad
  rw [hfull, Nat.sub_self] at h4
  exact ⟨r, h1, h2, h3, h4⟩

/-- C11, witness: a 44-byte buffer filled by one 44-byte frame of a dump; the DONE
frame comes next. -/
theorem c11_full_buffer_fails_witness :
    ∃ r, read_nl_sock ([exRoute.encode].map RecvResult.data ++
        RecvResult.data exDone.encode :: []) (fun _ => 0) 44 = some r ∧
      r.ret = -1 ∧ r.requests.length = [exRoute.encode].length + 1 ∧
      r.requests.getLast? = some 0 :=
  c11_full_buffer_fails 44 [exRoute.encode] (RecvResult.data exDone.encode) [] (fun _ => 0)
    (by decide) (by decide) (by decide) (by decide)

/-- With a return value 0 of `read_nl_sock`, `get_default_gw` returns -1 at once. -/
theorem get_default_gw_empty (fuel : Nat) (names : Nat → Option String) (env : SysEnv)
    (g : Nat) (i : String) (rd : ReadOut) (hread : gw_read env = some rd) (hret : rd.ret = 0) :
    get_default_gw fuel names env (some g) (some i) = some ⟨-1, some g, some i⟩ := by
  unfold gw_read at hread
  simp only [get_default_gw, hread, hret]
  rw [if_pos (by decide)]

/-- C12, counterexample: a well-formed buffer whose only record is an IPv6 record (no
IPv4 main-table record) and a buffer with a truncated frame both make
`get_default_gw` return -1: the two outcomes do not differ in the result. -/
theorem c12_counterexample :
    (exRoute6.wf ∧ ¬ exRoute6.isMain) ∧
      (∀ k, (get_default_gw (1 + k) exNames
          (exEnv [RecvResult.data exRoute6.encode, RecvResult.data exDone.encode])
          (some 0) (some "")).map (fun o => o.ret) = some (-1)) ∧
      (∀ k, (get_default_gw (2 + k) exNames
          (exEnv [RecvResult.data (exOifOnly.encode ++ exTruncated),
            RecvResult.data exDone.encode])
          (some 0) (some "")).map (fun o => o.ret) = some (-1)) := by
  refine ⟨by decide, fun k => ?_, fun k => ?_⟩
  · rw [get_default_gw_fuel_add 1 _ _ _ _ ⟨-1, some 0, some ""⟩ (by decide) k]; rfl
  · rw [get_default_gw_fuel_add 2 _ _ _ _ ⟨-1, some 0, some "eth0"⟩ (by decide) k]; rfl

/-- C12, amended: `get_default_gw` returns the same value -1 for a well-formed buffer
that contains no IPv4 main-table record and for a buffer in which well-formed
main-table IPv4 frames without gateway are followed by a truncated or malformed
frame; the result alone does not tell "no default route" from "parse failure". -/
theorem c12_same_failure_value (fuel : Nat) (names : Nat → Option String)
    (envA envB : SysEnv) (rdA rdB : ReadOut) (rs fs : List Route) (n gw0 : Nat)
    (iface0 : String)
    (hrs : ∀ r ∈ rs, r.wf ∧ ¬ r.isMain)
    (hreadA : gw_read envA = some rdA) (hretA : rdA.ret = ((encodeRoutes rs).length : Int))
    (hbufA : Holds rdA.buf 0 (encodeRoutes rs))
    (hfs : ∀ f ∈ fs, f.wf ∧ f.isMain ∧ ∀ a ∈ f.attrs, a.rta_type ≠ RTA_GATEWAY)
    (hreadB : gw_read envB = some rdB) (hretB : rdB.ret = (n : Int)) (hpos : 0 < n)
    (hbufB : Holds rdB.buf 0 (encodeRoutes fs)) (hle : (encodeRoutes fs).length ≤ n)
    (htr : n - (encodeRoutes fs).length < 16 ∨ rd32 rdB.buf (encodeRoutes fs).length < 16 ∨
      n - (encodeRoutes fs).length < rd32 rdB.buf (encodeRoutes fs).length)
    (hfuel : fs.length < fuel) :
    ∃ a b, get_default_gw fuel names envA (some gw0) (some iface0) = some a ∧
      get_default_gw fuel names envB (some gw0) (some iface0) = some b ∧
      a.ret = -1 ∧ b.ret = -1 := by
  have hnB := gw_read_ret_le envB rdB hreadB
  obtain ⟨iface1, hB⟩ := nl_loop_no_gw names rdB.buf fs hfs fuel 0 n gw0 iface0 hbufB hle
    (by omega) hfuel (by simpa using htr)
  have hB2 : get_default_gw fuel names envB (some gw0) (some iface0) =
      some ⟨-1, some gw0, some iface1⟩ := by
    rw [get_default_gw_parse fuel names envB gw0 iface0 rdB n hreadB hretB hpos, hB]; rfl
  have hA2 : get_default_gw fuel names envA (some gw0) (some iface0) =
      some ⟨-1, some gw0, some iface0⟩ := by
    cases rs with
    | nil => exact get_default_gw_empty fuel names envA gw0 iface0 rdA hreadA hretA
    | cons p ps =>
        have hnA := gw_read_ret_le envA rdA hreadA
        obtain ⟨hpw, hpm⟩ := hrs p (List.mem_cons_self _ _)
        simp only [encodeRoutes, List.length_append] at hretA hbufA
        have hposA : 0 < p.encode.length + (encodeRoutes ps).length := by
          rw [p.encode_length]; omega
        obtain ⟨m, hm⟩ : ∃ m, fuel = m + 1 := ⟨fuel - 1, by omega⟩
        subst hm
        rw [get_default_gw_parse (m + 1) names envA gw0 iface0 rdA _ hreadA hretA hposA,
          nl_loop_route names rdA.buf m 0 _ gw0 iface0 p hpw
            ((Holds_append _ _ _ 0).1 hbufA).1 (by omega) (by omega), if_pos hpm]
        rfl
  exact ⟨_, _, hA2, hB2, rfl, rfl⟩

/-- C12 as amended, witness: an IPv6 record alone on one side, a record followed by a
header that declares 40 bytes where 16 remain on the other. -/
theorem c12_same_failure_value_witness :
    ∃ a b, get_default_gw 2 exNames
        (exEnv [RecvResult.data exRoute6.encode, RecvResult.data exDone.encode])
        (some 0) (some "") = some a ∧
      get_default_gw 2 exNames
        (exEnv [RecvResult.data (exOifOnly.encode ++ exTruncated), RecvResult.data exDone.encode])
        (some 0) (some "") = some b ∧
      a.ret = -1 ∧ b.ret = -1 :=
  c12_same_failure_value 2 exNames
    (exEnv [RecvResult.data exRoute6.encode, RecvResult.data exDone.encode])
    (exEnv [RecvResult.data (exOifOnly.encode ++ exTruncated), RecvResult.data exDone.encode])
    ⟨28, memcpy_to (memcpy_to (fun _ => 0) 0 exRoute6.encode) 28 exDone.encode, [8192, 8164]⟩
    ⟨52, memcpy_to (memcpy_to (fun _ => 0) 0 (exOifOnly.encode ++ exTruncated)) 52
      exDone.encode, [8192, 8140]⟩
    [exRoute6] [exOifOnly] 52 0 "" (by decide) (by rfl) (by decide) (by decide) (by decide)
    (by rfl) (by rfl) (by decide) (by decide) (by decide) (by decide) (by decide)

/-! ## Claims on `get_iface_ip`, `get_hw_addr` and the sockets -/

/-- C13 (the code diverges): with an `ioctl` that succeeds and carries 127.0.0.1 (the
word 16777343), `get_iface_ip` returns success but stores 4294958100, the low 32 bits
of the address of the field `sin_addr.s_addr` of its local `ifr`; an `ioctl` result
carrying 192.0.2.1 stores the same value: what is stored does not depend on the
address that `ioctl` delivered. -/
theorem c13_stores_field_address :
    get_iface_ip (exIfEnv 16777343) ['l', 'o'] 0 =
        ⟨some 0, 4294958100, [IpEvent.socket, IpEvent.ioctl ['l', 'o'], IpEvent.close 3]⟩ ∧
      (get_iface_ip (exIfEnv 16908480) ['l', 'o'] 0).s_addr =
        (get_iface_ip (exIfEnv 16777343) ['l', 'o'] 0).s_addr ∧
      (get_iface_ip (exIfEnv 16777343) ['l', 'o'] 0).s_addr ≠ 16777343 := by
  refine ⟨by decide, by decide, by decide⟩

/-- C14, counterexample: the table opens and holds no entry for 192.0.2.1, and
`log_fatal`, which `get_hw_addr` calls at line 42 before it sets `rc = -1`, ends the
process: `get_hw_addr` does not return -1, it does not return at all, and the table
is left open. -/
theorem c14_counterexample :
    (exArpEmpty false).open_ok = true ∧ (exArpEmpty false).lookup 16908480 = none ∧
      get_hw_addr (exArpEmpty false) (some 16908480) (some "eth0") (some [1, 2, 3, 4, 5, 6]) =
        ⟨none, some [1, 2, 3, 4, 5, 6],
          [HwEvent.arp_open, HwEvent.arp_get 16908480, HwEvent.log_fatal]⟩ ∧
      (get_hw_addr (exArpEmpty false) (some 16908480) (some "eth0")
        (some [1, 2, 3, 4, 5, 6])).ret ≠ some (-1) := by
  refine ⟨by decide, by decide, by decide, by decide⟩

/-- C14, amended: when `gw_ip` or `hw_mac` is null, `get_hw_addr` returns -1 without
opening or querying the ARP table and without touching `hw_mac`; when the table opens
and holds no entry for the address, the table is queried once, the failure is
reported through `log_fatal` and `hw_mac` is not written; if `log_fatal` returns to
its caller the table is closed and -1 is returned, and if `log_fatal` ends the
process the function does not return. -/
theorem c14_invalid_or_missing (env : ArpEnv) (gw_ip : Option Nat) (iface : Option String)
    (hw_mac : Option (List Nat)) :
    ((gw_ip = none ∨ hw_mac = none) →
        get_hw_addr env gw_ip iface hw_mac = ⟨some (-1), hw_mac, []⟩) ∧
      (∀ ip mac, gw_ip = some ip → hw_mac = some mac → env.open_ok = true →
        env.lookup ip = none →
        (get_hw_addr env gw_ip iface hw_mac).hw_mac = some mac ∧
          (env.fatal_returns = true →
            get_hw_addr env gw_ip iface hw_mac =
              ⟨some (-1), some mac, [HwEvent.arp_open, HwEvent.arp_get ip, HwEvent.log_fatal,
                HwEvent.arp_close]⟩) ∧
          (env.fatal_returns = false →
            get_hw_addr env gw_ip iface hw_mac =
              ⟨none, some mac, [HwEvent.arp_open, HwEvent.arp_get ip, HwEvent.log_fatal]⟩)) := by
  constructor
  · rintro (h | h)
    · subst h; cases iface <;> cases hw_mac <;> rfl
    · subst h; cases gw_ip <;> cases iface <;> rfl
  · intro ip mac hg hm hopen hlook
    subst hg; subst hm
    refine ⟨?_, ?_, ?_⟩
    · cases hf : env.fatal_returns <;> simp [get_hw_addr, hopen, hlook, hf]
    · intro hf
      simp [get_hw_addr, hopen, hlook, hf]
    · intro hf
      simp [get_hw_addr, hopen, hlook, hf]

/-- C14 as amended, witness: a null `hw_mac`, and a lookup of 192.0.2.1 in an empty
table with a `log_fatal` that returns and with one that does not. -/
theorem c14_invalid_or_missing_witness :
    get_hw_addr (exArpEmpty true) (some 16908480) (some "eth0") none = ⟨some (-1), none, []⟩ ∧
      (get_hw_addr (exArpEmpty true) (some 16908480) (some "eth0")
          (some [1, 2, 3, 4, 5, 6])).hw_mac = some [1, 2, 3, 4, 5, 6] ∧
      get_hw_addr (exArpEmpty true) (some 16908480) (some "eth0") (some [1, 2, 3, 4, 5, 6]) =
        ⟨some (-1), some [1, 2, 3, 4, 5, 6], [HwEvent.arp_open, HwEvent.arp_get 16908480,
          HwEvent.log_fatal, HwEvent.arp_close]⟩ ∧
      (get_hw_addr (exArpEmpty false) (some 16908480) (some "eth0")
          (some [1, 2, 3, 4, 5, 6])).hw_mac = some [1, 2, 3, 4, 5, 6] ∧
      get_hw_addr (exArpEmpty false) (some 16908480) (some "eth0") (some [1, 2, 3, 4, 5, 6]) =
        ⟨none, some [1, 2, 3, 4, 5, 6], [HwEvent.arp_open, HwEvent.arp_get 16908480,
          HwEvent.log_fatal]⟩ :=
  ⟨(c14_invalid_or_missing (exArpEmpty true) (some 16908480) (some "eth0") none).1
      (Or.inr rfl),
    ((c14_invalid_or_missing (exArpEmpty true) (some 16908480) (some "eth0")
      (some [1, 2, 3, 4, 5, 6])).2 16908480 [1, 2, 3, 4, 5, 6] rfl rfl rfl rfl).1,
    ((c14_invalid_or_missing (exArpEmpty true) (some 16908480) (some "eth0")
      (some [1, 2, 3, 4, 5, 6])).2 16908480 [1, 2, 3, 4, 5, 6] rfl rfl rfl rfl).2.1 rfl,
    ((c14_invalid_or_missing (exArpEmpty false) (some 16908480) (some "eth0")
      (some [1, 2, 3, 4, 5, 6])).2 16908480 [1, 2, 3, 4, 5, 6] rfl rfl rfl rfl).1,
    ((c14_invalid_or_missing (exArpEmpty false) (some 16908480) (some "eth0")
      (some [1, 2, 3, 4, 5, 6])).2 16908480 [1, 2, 3, 4, 5, 6] rfl rfl rfl rfl).2.2 rfl⟩

/-- C15 (the code diverges): the socket opened inside `send_nl_req` is never closed.
After a successful lookup `get_default_gw` has returned 0 and descriptor 3 is still
open; the same holds after a failed read and after a lookup that finds no route;
and the overflow, allocation-failure and send-failure exits of `send_nl_req` return
-1 with the descriptor open, so that no caller can close it. -/
theorem c15_socket_left_open :
    (get_default_gw 1 exNames
        (exEnv [RecvResult.data exRoute.encode, RecvResult.data exDone.encode])
        (some 0) (some "") = some ⟨0, some 16908480, some "eth0"⟩ ∧
      get_default_gw_open_socks
        (exEnv [RecvResult.data exRoute.encode, RecvResult.data exDone.encode])
        (some 0) (some "") = [3]) ∧
      (get_default_gw 1 exNames (exEnv [RecvResult.data exDone.encode]) (some 0) (some "")
          = some ⟨-1, some 0, some ""⟩ ∧
        get_default_gw_open_socks (exEnv [RecvResult.data exDone.encode]) (some 0) (some "")
          = [3]) ∧
      (get_default_gw 1 exNames
          (exEnv [RecvResult.data exRoute6.encode, RecvResult.data exDone.encode])
          (some 0) (some "") = some ⟨-1, some 0, some ""⟩ ∧
        get_default_gw_open_socks
          (exEnv [RecvResult.data exRoute6.encode, RecvResult.data exDone.encode])
          (some 0) (some "") = [3]) ∧
      send_nl_req (exSendEnv true 28) RTM_GETROUTE 0 [] 4294967295 =
        ⟨-1, SendBranch.overflow, none, none, none, [3], false⟩ ∧
      ((send_nl_req (exSendEnv false 28) RTM_GETROUTE 0 (List.replicate 12 0) 12).ret = -1 ∧
        (send_nl_req (exSendEnv false 28) RTM_GETROUTE 0 (List.replicate 12 0) 12).branch =
          SendBranch.alloc_failed ∧
        (send_nl_req (exSendEnv false 28) RTM_GETROUTE 0 (List.replicate 12 0) 12).open_socks =
          [3]) ∧
      ((send_nl_req (exSendEnv true (-1)) RTM_GETROUTE 0 (List.replicate 12 0) 12).ret = -1 ∧
        (send_nl_req (exSendEnv true (-1)) RTM_GETROUTE 0 (List.replicate 12 0) 12).branch =
          SendBranch.send_failed ∧
        (send_nl_req (exSendEnv true (-1)) RTM_GETROUTE 0 (List.replicate 12 0) 12).open_socks =
          [3]) := by
  refine ⟨⟨by decide, by decide⟩, ⟨by decide, by decide⟩, ⟨by decide, by decide⟩, by decide,
    ⟨by decide, by decide, by decide⟩, ⟨by decide, by decide, by decide⟩⟩

/-! ## The requests and the length returned by `read_nl_sock` -/

theorem memcpy_nil (buf : Buf) (off : Nat) : memcpy_to buf off [] = buf := by
  funext k
  simp [memcpy_to]

theorem store_chunks_snoc (cs : List (List Nat)) (c : List Nat) :
    ∀ (buf : Buf) (pbuf : Nat), store_chunks buf pbuf (cs ++ [c]) =
      memcpy_to (store_chunks buf pbuf cs) (pbuf + total_len cs) c := by
  induction cs with
  | nil => intro buf pbuf; rfl
  | cons x xs ih =>
      intro buf pbuf
      show store_chunks (memcpy_to buf pbuf x) (pbuf + x.length) (xs ++ [c]) = _
      rw [ih]
      show _ = memcpy_to (store_chunks (memcpy_to buf pbuf x) (pbuf + x.length) xs)
        (pbuf + (x.length + total_len xs)) c
      rw [Nat.add_assoc]

theorem total_len_snoc (cs : List (List Nat)) (c : List Nat) :
    total_len (cs ++ [c]) = total_len cs + c.length := by
  induction cs with
  | nil => simp [total_len]
  | cons x xs ih =>
      show x.length + total_len (xs ++ [c]) = x.length + total_len xs + c.length
      rw [ih]; omega

theorem req_sizes_le (ps : List (List Nat)) : ∀ cap q, q ∈ req_sizes cap ps → q ≤ cap := by
  induction ps with
  | nil =>
      intro cap q hq
      simp only [req_sizes, List.mem_singleton] at hq
      omega
  | cons p ps ih =>
      intro cap q hq
      simp only [req_sizes, List.mem_cons] at hq
      rcases hq with hq | hq
      · omega
      · have := ih _ q hq
        omega

/-- Every run of the reading loop that returns splits into continuing chunks and one
last `recv`: the sizes asked are the free space before each call, the buffer holds
the chunks one after the other, and the value returned is -1, or the bytes
accumulated before a last chunk of type DONE, or the bytes accumulated with a last
chunk that is not of type DONE. -/
theorem read_loop_decomp (buf_len : Int) (hlt : buf_len < 2 ^ 31) (recvs : List RecvResult) :
    ∀ (buf : Buf) (msg_len : Int) (pbuf : Nat) (reqs : List Nat) (r : ReadOut),
      0 ≤ msg_len → msg_len ≤ buf_len →
      read_nl_sock_loop buf_len recvs buf msg_len pbuf reqs = some r →
      ∃ pre last post, recvs = pre.map RecvResult.data ++ last :: post ∧
        (∀ p ∈ recv_parts (buf_len - msg_len).toNat pre, Continuing p) ∧
        r.requests = reqs ++ req_sizes (buf_len - msg_len).toNat
          (recv_parts (buf_len - msg_len).toNat pre) ∧
        r.buf = store_chunks buf pbuf (recv_parts (buf_len - msg_len).toNat pre ++
          [last_part ((buf_len - msg_len).toNat -
            total_len (recv_parts (buf_len - msg_len).toNat pre)) last]) ∧
        (r.ret = -1 ∨
          (r.ret = msg_len + (total_len (recv_parts (buf_len - msg_len).toNat pre) : Nat) ∧
            lead_type (last_part ((buf_len - msg_len).toNat -
              total_len (recv_parts (buf_len - msg_len).toNat pre)) last) = NLMSG_DONE) ∨
          (r.ret = msg_len + (total_len (recv_parts (buf_len - msg_len).toNat pre ++
              [last_part ((buf_len - msg_len).toNat -
                total_len (recv_parts (buf_len - msg_len).toNat pre)) last]) : Nat) ∧
            lead_type (last_part ((buf_len - msg_len).toNat -
              total_len (recv_parts (buf_len - msg_len).toNat pre)) last) ≠ NLMSG_DONE)) := by
  induction recvs with
  | nil => intro buf msg_len pbuf reqs r _ _ h; simp [read_nl_sock_loop] at h
  | cons x rest ih =>
      intro buf msg_len pbuf reqs r h0 h1 h
      have hsz := toSize_eq (buf_len - msg_len) (by omega) (by omega)
      cases x with
      | error =>
          simp only [read_nl_sock_loop, Option.some.injEq] at h
          subst h
          refine ⟨[], RecvResult.error, rest, rfl, by simp [recv_parts], ?_, ?_, Or.inl rfl⟩
          · show reqs ++ [toSize (buf_len - msg_len)] = _
            rw [hsz]; rfl
          · show buf = memcpy_to buf pbuf []
            rw [memcpy_nil]
      | data d =>
          have hgl : (d.take (buf_len - msg_len).toNat).length ≤ (buf_len - msg_len).toNat := by
            rw [List.length_take]; exact Nat.min_le_left _ _
          rw [read_loop_step buf_len d rest buf msg_len pbuf reqs (by rw [hsz]; omega), hsz] at h
          by_cases hb : ¬ lead_ok (d.take (buf_len - msg_len).toNat) ∨
              lead_type (d.take (buf_len - msg_len).toNat) = NLMSG_ERROR
          · rw [if_pos hb] at h
            simp only [Option.some.injEq] at h
            subst h
            exact ⟨[], RecvResult.data d, rest, rfl, by simp [recv_parts], rfl, rfl, Or.inl rfl⟩
          · rw [if_neg hb] at h
            by_cases hd : lead_type (d.take (buf_len - msg_len).toNat) = NLMSG_DONE
            · rw [if_pos hd] at h
              simp only [Option.some.injEq] at h
              subst h
              refine ⟨[], RecvResult.data d, rest, rfl, by simp [recv_parts], rfl, rfl,
                Or.inr (Or.inl ⟨?_, hd⟩)⟩
              show msg_len = msg_len + ((0 : Nat) : Int)
              simp
            · rw [if_neg hd] at h
              by_cases hm : lead_flags (d.take (buf_len - msg_len).toNat) &&& NLM_F_MULTI = 0
              · rw [if_pos hm] at h
                simp only [Option.some.injEq] at h
                subst h
                refine ⟨[], RecvResult.data d, rest, rfl, by simp [recv_parts], rfl, rfl,
                  Or.inr (Or.inr ⟨?_, hd⟩)⟩
                show msg_len + _ = msg_len + (((d.take (buf_len - msg_len).toNat).length + 0 : Nat)
                  : Int)
                simp
              · rw [if_neg hm] at h
                have hcap : (buf_len - (msg_len + ((d.take (buf_len - msg_len).toNat).length
                    : Nat))).toNat
                    = (buf_len - msg_len).toNat - (d.take (buf_len - msg_len).toNat).length := by
                  omega
                obtain ⟨pre, last, post, e1, e2, e3, e4, e5⟩ :=
                  ih _ _ _ _ r (by omega) (by omega) h
                rw [hcap] at e2 e3 e4 e5
                have hcont : Continuing (d.take (buf_len - msg_len).toNat) := by
                  refine ⟨?_, ?_, hd, hm⟩
                  · by_contra hc; exact hb (Or.inl hc)
                  · intro hc; exact hb (Or.inr hc)
                refine ⟨d :: pre, last, post, by rw [e1]; rfl, ?_, ?_, ?_, ?_⟩
                · intro p hp
                  rcases List.mem_cons.1 hp with hp | hp
                  · rw [hp]; exact hcont
                  · exact e2 p hp
                · rw [e3, List.append_assoc]; rfl
                · rw [e4]
                  show _ = store_chunks (memcpy_to buf pbuf (d.take (buf_len - msg_len).toNat))
                    (pbuf + (d.take (buf_len - msg_len).toNat).length)
                    (recv_parts ((buf_len - msg_len).toNat -
                      (d.take (buf_len - msg_len).toNat).length) pre ++
                      [last_part ((buf_len - msg_len).toNat -
                        ((d.take (buf_len - msg_len).toNat).length +
                          total_len (recv_parts ((buf_len - msg_len).toNat -
                            (d.take (buf_len - msg_len).toNat).length) pre))) last])
                  rw [Nat.sub_sub]
                · have hs : (buf_len - msg_len).toNat - (d.take (buf_len - msg_len).toNat).length -
                      total_len (recv_parts ((buf_len - msg_len).toNat -
                        (d.take (buf_len - msg_len).toNat).length) pre) =
                      (buf_len - msg_len).toNat - ((d.take (buf_len - msg_len).toNat).length +
                        total_len (recv_parts ((buf_len - msg_len).toNat -
                          (d.take (buf_len - msg_len).toNat).length) pre)) := Nat.sub_sub _ _ _
                  rw [hs] at e5
                  rcases e5 with e5 | ⟨e5, e6⟩ | ⟨e5, e6⟩
                  · exact Or.inl e5
                  · refine Or.inr (Or.inl ⟨?_, e6⟩)
                    rw [e5]
                    show _ = msg_len + (((d.take (buf_len - msg_len).toNat).length +
                      total_len (recv_parts ((buf_len - msg_len).toNat -
                        (d.take (buf_len - msg_len).toNat).length) pre) : Nat) : Int)
                    push_cast; omega
                  · refine Or.inr (Or.inr ⟨?_, e6⟩)
                    rw [e5]
                    show _ = msg_len + (((d.take (buf_len - msg_len).toNat).length +
                      total_len (recv_parts ((buf_len - msg_len).toNat -
                        (d.take (buf_len - msg_len).toNat).length) pre ++
                        [last_part ((buf_len - msg_len).toNat -
                          ((d.take (buf_len - msg_len).toNat).length +
                            total_len (recv_parts ((buf_len - msg_len).toNat -
                              (d.take (buf_len - msg_len).toNat).length) pre))) last])
                        : Nat) : Int)
                    push_cast; omega

/-- C16: for `0 ≤ buf_len` and `recv` calls that store at most the number of bytes
asked for, every run of `read_nl_sock` that returns consists of continuing chunks
and one last `recv`; each `recv` was asked for `buf_len` minus the bytes accumulated
so far (the chunks never exceed `buf_len`, so that amount is never negative), the
chunks lie in the buffer one directly after the other, and a non-negative return
value is at most `buf_len` and equals the number of bytes stored, a terminating DONE
chunk excluded: when the last chunk is of type DONE the value is the bytes of the
chunks before it, otherwise it is the bytes of all the chunks. -/
theorem c16_requests_and_length (buf_len : Int) (recvs : List RecvResult) (buf0 : Buf)
    (r : ReadOut) (h0 : 0 ≤ buf_len) (hlt : buf_len < 2 ^ 31)
    (hr : read_nl_sock recvs buf0 buf_len = some r) :
    ∃ pre last post, recvs = pre.map RecvResult.data ++ last :: post ∧
      (∀ p ∈ recv_parts buf_len.toNat pre, Continuing p) ∧
      r.requests = req_sizes buf_len.toNat (recv_parts buf_len.toNat pre) ∧
      total_len (recv_parts buf_len.toNat pre ++
        [last_part (buf_len.toNat - total_len (recv_parts buf_len.toNat pre)) last])
          ≤ buf_len.toNat ∧
      (∀ q ∈ r.requests, (q : Int) ≤ buf_len) ∧
      r.buf = store_chunks buf0 0 (recv_parts buf_len.toNat pre ++
        [last_part (buf_len.toNat - total_len (recv_parts buf_len.toNat pre)) last]) ∧
      (0 ≤ r.ret → r.ret ≤ buf_len ∧
        (lead_type (last_part (buf_len.toNat - total_len (recv_parts buf_len.toNat pre)) last)
            = NLMSG_DONE →
          r.ret = (total_len (recv_parts buf_len.toNat pre) : Nat)) ∧
        (lead_type (last_part (buf_len.toNat - total_len (recv_parts buf_len.toNat pre)) last)
            ≠ NLMSG_DONE →
          r.ret = (total_len (recv_parts buf_len.toNat pre ++
            [last_part (buf_len.toNat - total_len (recv_parts buf_len.toNat pre)) last])
              : Nat))) := by
  have e0 : (buf_len - 0).toNat = buf_len.toNat := by simp
  obtain ⟨pre, last, post, e1, e2, e3, e4, e5⟩ :=
    read_loop_decomp buf_len hlt recvs buf0 0 0 [] r (le_refl _) h0 hr
  rw [e0] at e2 e3 e4 e5
  have htl := recv_parts_total_le pre buf_len.toNat
  have hlast : (last_part (buf_len.toNat - total_len (recv_parts buf_len.toNat pre)) last).length
      ≤ buf_len.toNat - total_len (recv_parts buf_len.toNat pre) := by
    cases last with
    | error => simp [last_part]
    | data d =>
        show (d.take _).length ≤ _
        rw [List.length_take]; exact Nat.min_le_left _ _
  have htot := total_len_snoc (recv_parts buf_len.toNat pre)
    (last_part (buf_len.toNat - total_len (recv_parts buf_len.toNat pre)) last)
  refine ⟨pre, last, post, e1, e2, by rw [e3]; rfl, by omega, ?_, e4, ?_⟩
  · intro q hq
    rw [e3] at hq
    have := req_sizes_le _ _ q (by simpa using hq)
    omega
  · intro hnn
    rcases e5 with e5 | ⟨e5, e6⟩ | ⟨e5, e6⟩
    · omega
    · exact ⟨by omega, fun _ => by omega, fun hne => absurd e6 hne⟩
    · exact ⟨by omega, fun hd => absurd hd e6, fun _ => by omega⟩

/-- C16, witness: a route frame of a dump, then the DONE frame, read into 8192 bytes. -/
theorem c16_requests_and_length_witness :
    ∃ pre last post,
      [RecvResult.data exRoute.encode, RecvResult.data exDone.encode]
        = pre.map RecvResult.data ++ last :: post ∧
      (∀ p ∈ recv_parts (8192 : Int).toNat pre, Continuing p) ∧
      [8192, 8148] = req_sizes (8192 : Int).toNat (recv_parts (8192 : Int).toNat pre) ∧
      total_len (recv_parts (8192 : Int).toNat pre ++
        [last_part ((8192 : Int).toNat - total_len (recv_parts (8192 : Int).toNat pre)) last])
          ≤ (8192 : Int).toNat ∧
      (∀ q ∈ [8192, 8148], ((q : Nat) : Int) ≤ 8192) ∧
      memcpy_to (memcpy_to (fun _ => 0) 0 exRoute.encode) 44 exDone.encode =
        store_chunks (fun _ => 0) 0 (recv_parts (8192 : Int).toNat pre ++
          [last_part ((8192 : Int).toNat - total_len (recv_parts (8192 : Int).toNat pre))
            last]) ∧
      ((0 : Int) ≤ 44 → (44 : Int) ≤ 8192 ∧
        (lead_type (last_part ((8192 : Int).toNat -
            total_len (recv_parts (8192 : Int).toNat pre)) last) = NLMSG_DONE →
          (44 : Int) = (total_len (recv_parts (8192 : Int).toNat pre) : Nat)) ∧
        (lead_type (last_part ((8192 : Int).toNat -
            total_len (recv_parts (8192 : Int).toNat pre)) last) ≠ NLMSG_DONE →
          (44 : Int) = (total_len (recv_parts (8192 : Int).toNat pre ++
            [last_part ((8192 : Int).toNat - total_len (recv_parts (8192 : Int).toNat pre))
              last]) : Nat))) :=
  c16_requests_and_length 8192 [RecvResult.data exRoute.encode, RecvResult.data exDone.encode]
    (fun _ => 0)
    ⟨44, memcpy_to (memcpy_to (fun _ => 0) 0 exRoute.encode) 44 exDone.encode, [8192, 8148]⟩
    (by decide) (by decide) (by rfl)

/-! ## Termination of the frame loop, and `gw` on failure -/

/-- A frame of the IPv4 main table without gateway whose declared length rounds up to
0 leaves pointer and remaining length as they are: the outer loop never ends. -/
theorem nl_loop_stuck (names : Nat → Option String) (buf : Buf) (off nl_len gw : Nat)
    (iface : String) (hlen : nl_len < 2 ^ 32) (hok : NLMSG_OK buf off nl_len = true)
    (hfam : rd8 buf (off + sizeof_nlmsghdr) = AF_INET)
    (htab : rd8 buf (off + sizeof_nlmsghdr + 4) = RT_TABLE_MAIN)
    (hst : rta_loop names buf (RTM_PAYLOAD (rd32 buf off)).toNat
      (off + sizeof_nlmsghdr + NLMSG_ALIGN sizeof_rtmsg) (RTM_PAYLOAD (rd32 buf off))
      ⟨gw, iface, false⟩ = ⟨gw, iface, false⟩)
    (hal : NLMSG_ALIGN (rd32 buf off) = 0) :
    ∀ fuel, nl_loop names buf fuel off nl_len gw iface = none := by
  intro fuel
  induction fuel with
  | zero => rfl
  | succ n ih =>
      have hnext : NLMSG_NEXT_len nl_len (rd32 buf off) = nl_len := by
        unfold NLMSG_NEXT_len; rw [hal]; omega
      rw [nl_loop, if_pos hok]
      simp only [hfam, htab, hst, hal, hnext, Nat.add_zero, ne_eq, not_true_eq_false, or_self,
        if_false, Bool.false_eq_true]
      exact ih

/-- C17 (the code diverges): one `recv` delivers a 28-byte datagram whose header
declares the length 0xFFFFFFFF, with family IPv4 and table MAIN. `read_nl_sock`
rejects it and returns -1, which `get_default_gw` takes as `nl_len = 4294967295`; the
frame passes `NLMSG_OK`, has no attribute to parse, and `NLMSG_ALIGN` of its length
wraps to 0, so `NLMSG_NEXT` changes neither the pointer nor `nl_len`: for no number
of iterations does the frame loop end. A frame of declared length 30 in 30 remaining
bytes does not decrease the remaining length either: it becomes 4294967294. -/
theorem c17_frame_loop_never_ends :
    (gw_read (exEnv [RecvResult.data exHugeLen])).map (fun r => r.ret) = some (-1) ∧
      (∀ fuel, get_default_gw fuel exNames (exEnv [RecvResult.data exHugeLen])
        (some 0) (some "") = none) ∧
      NLMSG_NEXT_len 30 30 = 4294967294 := by
  refine ⟨by rfl, fun fuel => ?_, by decide⟩
  have hread : read_nl_sock
      (recv_results (exEnv [RecvResult.data exHugeLen])
        (send_nl_req (exEnv [RecvResult.data exHugeLen]) RTM_GETROUTE 0
          (List.replicate sizeof_rtmsg 0) sizeof_rtmsg).ret)
      (exEnv [RecvResult.data exHugeLen]).stack BUFSIZE =
      some ⟨-1, memcpy_to (fun _ => 0) 0 exHugeLen, [8192]⟩ := by rfl
  have hn : ofInt32 (-1) = 4294967295 := by decide
  simp only [get_default_gw, hread, hn]
  rw [if_neg (by decide),
    nl_loop_stuck exNames (memcpy_to (fun _ => 0) 0 exHugeLen) 0 4294967295 0 "" (by decide)
      (by decide) (by decide) (by decide) (by decide) (by decide) fuel]
  rfl

/-- The inner loop sets `has_gw` whenever it writes `gw`. -/
theorem rta_loop_keeps_gw (names : Nat → Option String) (buf : Buf) :
    ∀ (fuel rta : Nat) (rt_len : Int) (st : AttrState),
      (rta_loop names buf fuel rta rt_len st).has_gw = false →
      st.has_gw = false ∧ (rta_loop names buf fuel rta rt_len st).gw = st.gw := by
  intro fuel
  induction fuel with
  | zero => intro rta rt_len st h; exact ⟨h, rfl⟩
  | succ n ih =>
      intro rta rt_len st h
      rw [rta_loop] at h ⊢
      by_cases hok : RTA_OK buf rta rt_len = true
      · rw [if_pos hok] at h ⊢
        simp only at h ⊢
        obtain ⟨i1, i2⟩ := ih _ _ _ h
        rw [i2]
        by_cases h0 : rd16 buf (rta + 2) = RTA_OIF
        · rw [if_pos h0] at i1 ⊢; exact ⟨i1, rfl⟩
        · rw [if_neg h0] at i1 ⊢
          by_cases h1 : rd16 buf (rta + 2) = RTA_GATEWAY
          · rw [if_pos h1] at i1; simp at i1
          · rw [if_neg h1] at i1 ⊢; exact ⟨i1, rfl⟩
      · rw [if_neg hok] at h ⊢; exact ⟨h, rfl⟩

/-- The outer loop returns 0 or -1, and with -1 it hands back the `gw` it was given. -/
theorem nl_loop_fail_keeps_gw (names : Nat → Option String) (buf : Buf) :
    ∀ (fuel nlhdr nl_len gw : Nat) (iface : String) (r : GwRet),
      nl_loop names buf fuel nlhdr nl_len gw iface = some r → r.ret = -1 → r.gw = gw := by
  intro fuel
  induction fuel with
  | zero => intro nlhdr nl_len gw iface r h; simp [nl_loop] at h
  | succ n ih =>
      intro nlhdr nl_len gw iface r h hret
      rw [nl_loop] at h
      by_cases hok : NLMSG_OK buf nlhdr nl_len = true
      · rw [if_pos hok] at h
        simp only at h
        by_cases hfam : rd8 buf (nlhdr + sizeof_nlmsghdr) ≠ AF_INET ∨
            rd8 buf (nlhdr + sizeof_nlmsghdr + 4) ≠ RT_TABLE_MAIN
        · rw [if_pos hfam] at h
          simp only [Option.some.injEq] at h
          rw [← h]
        · rw [if_neg hfam] at h
          by_cases hg : (rta_loop names buf (RTM_PAYLOAD (rd32 buf nlhdr)).toNat
              (nlhdr + sizeof_nlmsghdr + NLMSG_ALIGN sizeof_rtmsg) (RTM_PAYLOAD (rd32 buf nlhdr))
              ⟨gw, iface, false⟩).has_gw = true
          · rw [if_pos hg] at h
            simp only [Option.some.injEq] at h
            rw [← h] at hret
            simp at hret
          · rw [if_neg hg] at h
            have hk := (rta_loop_keeps_gw names buf _ _ _ _ (by simpa using hg)).2
            rw [ih _ _ _ _ r h hret, hk]
      · rw [if_neg hok] at h
        simp only [Option.some.injEq] at h
        rw [← h]

/-- C18: whenever `get_default_gw` returns -1, the caller's `gw` is what it was before
the call: `gw` is written only by a gateway attribute, which also sets `has_gw`, and
a record that set `has_gw` makes the call return 0. -/
theorem c18_failure_keeps_gw (fuel : Nat) (names : Nat → Option String) (env : SysEnv)
    (gw : Option Nat) (iface : Option String) (res : GwResult)
    (h : get_default_gw fuel names env gw iface = some res) (hret : res.ret = -1) :
    res.gw = gw := by
  cases gw with
  | none =>
      simp only [get_default_gw, Option.some.injEq] at h
      rw [← h]
  | some g =>
      cases iface with
      | none =>
          simp only [get_default_gw, Option.some.injEq] at h
          rw [← h]
      | some i =>
          simp only [get_default_gw] at h
          cases hrd : read_nl_sock (recv_results env
              (send_nl_req env RTM_GETROUTE 0 (List.replicate sizeof_rtmsg 0) sizeof_rtmsg).ret)
              env.stack BUFSIZE with
          | none => rw [hrd] at h; simp at h
          | some rd =>
              rw [hrd] at h
              simp only at h
              by_cases hle : ofInt32 rd.ret ≤ 0
              · rw [if_pos hle] at h
                simp only [Option.some.injEq] at h
                rw [← h]
              · rw [if_neg hle] at h
                obtain ⟨o, ho, hm⟩ := Option.map_eq_some'.1 h
                rw [← hm] at hret ⊢
                show some o.gw = some g
                rw [nl_loop_fail_keeps_gw names rd.buf fuel 0 _ g i o ho hret]

/-- C18, witness: an IPv6 record makes the call fail; `gw` keeps the value 5. -/
theorem c18_failure_keeps_gw_witness :
    get_default_gw 1 exNames
        (exEnv [RecvResult.data exRoute6.encode, RecvResult.data exDone.encode])
        (some 5) (some "") = some ⟨-1, some 5, some ""⟩ ∧
      (⟨-1, some 5, some ""⟩ : GwResult).gw = some 5 :=
  ⟨by decide,
    c18_failure_keeps_gw 1 exNames
      (exEnv [RecvResult.data exRoute6.encode, RecvResult.data exDone.encode])
      (some 5) (some "") ⟨-1, some 5, some ""⟩ (by decide) (by decide)⟩

end GetGateway
